import Mathlib

/-!
Shallow embedding of the ddx screen-text monitoring scripts
(scripts/screen_text_monitor.py and TEST screen reader/screen_text_analyzer.py),
together with the parts of the Python standard library that carry their logic
(difflib.SequenceMatcher with isjunk=None and autojunk=True, hashlib.sha1,
and the str methods they call).  Python strings are modelled as lists of
characters; machine words inside SHA-1 are Nat taken modulo 2^32.
-/

namespace DDX

/-- Python strings are modelled as lists of characters (code points). -/
abbrev Str := List Char

/-! ## difflib.SequenceMatcher (CPython, isjunk=None, autojunk=True)

`diff_size` in scripts/screen_text_monitor.py line 58 builds
`difflib.SequenceMatcher(a=old, b=new)` and sums the span lengths of all
non-equal opcodes.  The embedding below follows CPython difflib closely:
`b2j` maps a character to the ascending list of its positions in `b`, with
popular characters (count > len(b)//100 + 1 when len(b) >= 200) removed;
`find_longest_match` runs the j2len dynamic program, then the four
extension loops; `get_matching_blocks` runs the region stack, sorts, and
collapses adjacent blocks; `get_opcodes` turns blocks into tagged spans. -/

namespace Difflib

/-- A matching block: difflib.Match(a=i, b=j, size). -/
structure Block where
  i : Nat
  j : Nat
  size : Nat
deriving DecidableEq, Repr

/-- Ascending list of positions of character c in b (the list b2j[c] that
__chain_b builds before the autojunk purge). -/
def positions (b : Str) (c : Char) : List Nat :=
  (List.range b.length).filter (fun j => b[j]? == some c)

/-- autojunk: when len(b) >= 200, characters occurring more than
len(b) // 100 + 1 times are purged from b2j (the bpopular set). -/
def isPopular (b : Str) (c : Char) : Bool :=
  decide (200 ≤ b.length) && decide (b.length / 100 + 1 < b.count c)

/-- b2j after the autojunk purge; b2j.get(c, []) yields [] for purged keys. -/
def b2j (b : Str) (c : Char) : List Nat :=
  if isPopular b c then [] else positions b c

/-- bjunk is empty because the scripts build SequenceMatcher with
isjunk=None, so isbjunk is constantly false. -/
def isbjunk : Char → Bool := fun _ => false

/-- Inner loop body of find_longest_match for one j in b2j[a[i]]:
k = j2len.get(j-1, 0) + 1; newj2len[j] = k; best updated when k > bestsize.
The previous row dictionary j2len is read, the new row dictionary in the
state is written. -/
def innerStep (i : Nat) (j2len : Nat → Nat) (st : (Nat → Nat) × Block) (j : Nat) :
    (Nat → Nat) × Block :=
  let k := (match j with
    | 0 => 0
    | Nat.succ j' => j2len j') + 1
  let best := st.2
  let best' := if best.size < k then Block.mk (i + 1 - k) (j + 1 - k) k else best
  (Function.update st.1 j k, best')

/-- One row i of the dynamic program: iterate over b2j[a[i]], skipping
j < blo (continue) and stopping at the first j >= bhi (break); the list is
ascending, so these are dropWhile and takeWhile.  The state is the pair
(j2len, best); the new row dictionary starts empty (constantly 0). -/
def rowStep (a b : Str) (blo bhi : Nat) (st : (Nat → Nat) × Block) (i : Nat) :
    (Nat → Nat) × Block :=
  let js := ((b2j b (a.getD i (Char.ofNat 0))).dropWhile
      (fun j => decide (j < blo))).takeWhile (fun j => decide (j < bhi))
  js.foldl (innerStep i st.1) ((fun _ => 0 : Nat → Nat), st.2)

/-- The j2len dynamic program of find_longest_match over rows alo..ahi-1,
starting from besti, bestj, bestsize = alo, blo, 0. -/
def mainLoop (a b : Str) (alo ahi blo bhi : Nat) : Block :=
  ((List.range' alo (ahi - alo)).foldl
      (fun st i => rowStep a b blo bhi st i)
      ((fun _ => 0 : Nat → Nat), Block.mk alo blo 0)).2

/-- First extension loop: extend best backwards over non-junk equal
characters.  Structural recursion on besti. -/
def extendBack (a b : Str) (alo blo : Nat) : Nat → Nat → Nat → Block
  | 0, bj, size => Block.mk 0 bj size
  | Nat.succ bi, bj, size =>
    if alo < bi + 1 ∧ blo < bj ∧ isbjunk (b.getD (bj - 1) (Char.ofNat 0)) = false ∧
        a.getD bi (Char.ofNat 0) = b.getD (bj - 1) (Char.ofNat 0) then
      extendBack a b alo blo bi (bj - 1) (size + 1)
    else Block.mk (bi + 1) bj size

/-- Second extension loop: extend best forwards over non-junk equal
characters; fuel is ahi - (besti + size) at the call site, which bounds the
number of iterations exactly (the guard requires besti + size < ahi). -/
def extendFwd (a b : Str) (ahi bhi : Nat) (bi bj : Nat) : Nat → Nat → Nat
  | 0, size => size
  | Nat.succ fuel, size =>
    if bi + size < ahi ∧ bj + size < bhi ∧ isbjunk (b.getD (bj + size) (Char.ofNat 0)) = false ∧
        a.getD (bi + size) (Char.ofNat 0) = b.getD (bj + size) (Char.ofNat 0) then
      extendFwd a b ahi bhi bi bj fuel (size + 1)
    else size

/-- Third extension loop: extend backwards over junk; with isjunk=None the
guard is never satisfied. -/
def extendBackJunk (a b : Str) (alo blo : Nat) : Nat → Nat → Nat → Block
  | 0, bj, size => Block.mk 0 bj size
  | Nat.succ bi, bj, size =>
    if alo < bi + 1 ∧ blo < bj ∧ isbjunk (b.getD (bj - 1) (Char.ofNat 0)) = true ∧
        a.getD bi (Char.ofNat 0) = b.getD (bj - 1) (Char.ofNat 0) then
      extendBackJunk a b alo blo bi (bj - 1) (size + 1)
    else Block.mk (bi + 1) bj size

/-- Fourth extension loop: extend forwards over junk; never fires with
isjunk=None. -/
def extendFwdJunk (a b : Str) (ahi bhi : Nat) (bi bj : Nat) : Nat → Nat → Nat
  | 0, size => size
  | Nat.succ fuel, size =>
    if bi + size < ahi ∧ bj + size < bhi ∧ isbjunk (b.getD (bj + size) (Char.ofNat 0)) = true ∧
        a.getD (bi + size) (Char.ofNat 0) = b.getD (bj + size) (Char.ofNat 0) then
      extendFwdJunk a b ahi bhi bi bj fuel (size + 1)
    else size

/-- find_longest_match(alo, ahi, blo, bhi): the dynamic program followed by
the four extension loops. -/
def find_longest_match (a b : Str) (alo ahi blo bhi : Nat) : Block :=
  let m0 := mainLoop a b alo ahi blo bhi
  let m1 := extendBack a b alo blo m0.i m0.j m0.size
  let s2 := extendFwd a b ahi bhi m1.i m1.j (ahi - (m1.i + m1.size)) m1.size
  let m2 := Block.mk m1.i m1.j s2
  let m3 := extendBackJunk a b alo blo m2.i m2.j m2.size
  let s4 := extendFwdJunk a b ahi bhi m3.i m3.j (ahi - (m3.i + m3.size)) m3.size
  Block.mk m3.i m3.j s4

/-- The region stack of get_matching_blocks.  Python pops from the end of
the queue list, so the head of our list is the top of the stack; a split
pushes the left region then the right region, hence right lands on top.
The final result is sorted, so the processing order of acc is immaterial;
fuel (la + lb + 1 at the call site) bounds the number of pops, because every
pushed region has measure (ahi-alo) + (bhi-blo) at least two smaller than
its parent and the root has measure la + lb. -/
def gmbAux (a b : Str) : Nat → List (Nat × Nat × Nat × Nat) → List Block → List Block
  | 0, _, acc => acc
  | Nat.succ _, [], acc => acc
  | Nat.succ fuel, (alo, ahi, blo, bhi) :: queue, acc =>
    let m := find_longest_match a b alo ahi blo bhi
    if m.size ≠ 0 then
      let q1 : List (Nat × Nat × Nat × Nat) :=
        if alo < m.i ∧ blo < m.j then [(alo, m.i, blo, m.j)] else []
      let q2 : List (Nat × Nat × Nat × Nat) :=
        if m.i + m.size < ahi ∧ m.j + m.size < bhi then
          [(m.i + m.size, ahi, m.j + m.size, bhi)] else []
      gmbAux a b fuel (q2 ++ q1 ++ queue) (acc ++ [m])
    else gmbAux a b fuel queue acc

/-- Stable insertion of x after every already-placed y with le y x; folding
over the input from the left yields exactly the result of Python's stable
list.sort with le as a total preorder. -/
def insortBy {α : Type} (le : α → α → Bool) (x : α) : List α → List α
  | [] => [x]
  | y :: ys => if le y x then y :: insortBy le x ys else x :: y :: ys

/-- Stable sort by le, modelling Python list.sort / sorted. -/
def sortBy {α : Type} (le : α → α → Bool) (l : List α) : List α :=
  l.foldl (fun acc x => insortBy le x acc) []

/-- Lexicographic tuple order on (i, j, size): Python tuple comparison. -/
def blockLe (x y : Block) : Bool :=
  decide (x.i < y.i) || (decide (x.i = y.i) && (decide (x.j < y.j) ||
    (decide (x.j = y.j) && decide (x.size ≤ y.size))))

/-- The adjacency-collapsing pass of get_matching_blocks, starting from
i1 = j1 = k1 = 0. -/
def collapseAux : Nat × Nat × Nat → List Block → List Block
  | (i1, j1, k1), [] => if k1 ≠ 0 then [Block.mk i1 j1 k1] else []
  | (i1, j1, k1), m :: rest =>
    if i1 + k1 = m.i ∧ j1 + k1 = m.j then collapseAux (i1, j1, k1 + m.size) rest
    else (if k1 ≠ 0 then [Block.mk i1 j1 k1] else []) ++
      collapseAux (m.i, m.j, m.size) rest

/-- get_matching_blocks: recurse over regions, sort, collapse adjacent
blocks, and append the (la, lb, 0) sentinel. -/
def get_matching_blocks (a b : Str) : List Block :=
  let raw := gmbAux a b (a.length + b.length + 1) [(0, a.length, 0, b.length)] []
  collapseAux (0, 0, 0) (sortBy blockLe raw) ++ [Block.mk a.length b.length 0]

/-- Opcode tags of SequenceMatcher.get_opcodes. -/
inductive Tag where
  | replace
  | delete
  | insert
  | equal
deriving DecidableEq, Repr

/-- One opcode (tag, i1, i2, j1, j2). -/
structure Opcode where
  tag : Tag
  a1 : Nat
  a2 : Nat
  b1 : Nat
  b2 : Nat
deriving DecidableEq, Repr

/-- The opcode construction of get_opcodes: walk the matching blocks,
emitting a replace/delete/insert opcode for the gap before each block and
an equal opcode for the block itself when its size is nonzero. -/
def opcodesAux : Nat → Nat → List Block → List Opcode
  | _, _, [] => []
  | i, j, m :: rest =>
    (if i < m.i ∧ j < m.j then [Opcode.mk Tag.replace i m.i j m.j]
     else if i < m.i then [Opcode.mk Tag.delete i m.i j m.j]
     else if j < m.j then [Opcode.mk Tag.insert i m.i j m.j]
     else []) ++
    (if m.size ≠ 0 then [Opcode.mk Tag.equal m.i (m.i + m.size) m.j (m.j + m.size)] else []) ++
    opcodesAux (m.i + m.size) (m.j + m.size) rest

/-- get_opcodes. -/
def get_opcodes (a b : Str) : List Opcode := opcodesAux 0 0 (get_matching_blocks a b)

end Difflib

namespace Difflib

/-! ### Basic facts about the b2j index -/

theorem mem_positions {b : Str} {c : Char} {j : Nat} :
    j ∈ positions b c ↔ j < b.length ∧ b[j]? = some c := by
  simp [positions, List.mem_filter, List.mem_range, beq_iff_eq]

theorem positions_pairwise (b : Str) (c : Char) :
    (positions b c).Pairwise (· < ·) :=
  (List.pairwise_lt_range b.length).filter _

theorem mem_b2j {b : Str} {c : Char} {j : Nat} (h : j ∈ b2j b c) :
    j < b.length ∧ b[j]? = some c ∧ isPopular b c = false := by
  unfold b2j at h
  by_cases hp : isPopular b c
  · simp [hp] at h
  · rcases mem_positions.1 (by simpa [hp] using h) with ⟨h1, h2⟩
    exact ⟨h1, h2, by simpa using hp⟩

theorem b2j_pairwise (b : Str) (c : Char) : (b2j b c).Pairwise (· < ·) := by
  unfold b2j
  by_cases hp : isPopular b c
  · simp [hp]
  · simpa [hp] using positions_pairwise b c

theorem mem_b2j_of {b : Str} {c : Char} {j : Nat} (hj : j < b.length)
    (hc : b[j]? = some c) (hp : isPopular b c = false) : j ∈ b2j b c := by
  unfold b2j
  simp only [hp, Bool.false_eq_true, if_false]
  exact mem_positions.2 ⟨hj, hc⟩

theorem dropWhile_lt_zero (l : List Nat) :
    l.dropWhile (fun j => decide (j < 0)) = l := by
  cases l <;> simp [List.dropWhile]

theorem takeWhile_lt_all {n : Nat} {l : List Nat} (h : ∀ x ∈ l, x < n) :
    l.takeWhile (fun j => decide (j < n)) = l := by
  induction l with
  | nil => rfl
  | cons x xs ih =>
    have hx : x < n := h x (by simp)
    simp only [List.takeWhile_cons, decide_eq_true hx]
    exact congrArg (x :: ·) (ih fun y hy => h y (by simp [hy]))

/-! ### The chain function: the mathematical content of the j2len dictionary.

chain t i j is the length of the run of consecutive cells
(i - m, j - m), m = 0, 1, ..., all of which are hits of the dynamic
program on a = b = t over the full region (0, n, 0, n): character
equality with the b-side position indexed in b2j. -/

/-- A cell (i, j) is a hit of the dynamic program on a = b = t over the
full region. -/
def Valid (t : Str) (i j : Nat) : Prop :=
  i < t.length ∧ j ∈ b2j t (t.getD i (Char.ofNat 0))

instance (t : Str) (i j : Nat) : Decidable (Valid t i j) := by
  unfold Valid; infer_instance

/-- j2len chain length at cell (i, j) for a = b = t, full region. -/
def chain (t : Str) : Nat → Nat → Nat
  | 0, j => if Valid t 0 j then 1 else 0
  | i + 1, 0 => if Valid t (i + 1) 0 then 1 else 0
  | i + 1, j + 1 => if Valid t (i + 1) (j + 1) then chain t i j + 1 else 0

theorem valid_lt {t : Str} {i j : Nat} (h : Valid t i j) :
    i < t.length ∧ j < t.length := by
  rcases h with ⟨hi, hj⟩
  exact ⟨hi, (mem_b2j hj).1⟩

theorem valid_char {t : Str} {i j : Nat} (h : Valid t i j) :
    t.getD j (Char.ofNat 0) = t.getD i (Char.ofNat 0) := by
  rcases h with ⟨hi, hj⟩
  rcases mem_b2j hj with ⟨hjn, hc, _⟩
  simp [List.getD_eq_getElem?_getD, hc]

/-- A hit validates its left diagonal cell (i, i). -/
theorem valid_diag_left {t : Str} {i j : Nat} (h : Valid t i j) : Valid t i i := by
  rcases h with ⟨hi, hj⟩
  rcases mem_b2j hj with ⟨_, _, hp⟩
  refine ⟨hi, mem_b2j_of hi ?_ hp⟩
  simp [List.getD_eq_getElem?_getD, List.getElem?_eq_getElem hi]

/-- A hit validates its right diagonal cell (j, j). -/
theorem valid_diag_right {t : Str} {i j : Nat} (h : Valid t i j) : Valid t j j := by
  have hchar := valid_char h
  rcases h with ⟨hi, hj⟩
  rcases mem_b2j hj with ⟨hjn, hc, hp⟩
  refine ⟨hjn, ?_⟩
  rw [hchar]
  exact hj

theorem chain_eq_zero_of_not_valid {t : Str} {i j : Nat} (h : ¬ Valid t i j) :
    chain t i j = 0 := by
  match i, j with
  | 0, j => simp [chain, h]
  | i + 1, 0 => simp [chain, h]
  | i + 1, j + 1 => simp [chain, h]

theorem chain_pos_of_valid {t : Str} {i j : Nat} (h : Valid t i j) :
    1 ≤ chain t i j := by
  match i, j with
  | 0, j => simp [chain, h]
  | i + 1, 0 => simp [chain, h]
  | i + 1, j + 1 => simp [chain, h]

theorem chain_le_left (t : Str) : ∀ i j, chain t i j ≤ i + 1 := by
  intro i
  induction i with
  | zero => intro j; by_cases h : Valid t 0 j <;> simp [chain, h]
  | succ i ih =>
    intro j
    match j with
    | 0 => by_cases h : Valid t (i + 1) 0 <;> simp [chain, h]
    | j + 1 =>
      by_cases h : Valid t (i + 1) (j + 1)
      · simpa [chain, h] using ih j
      · simp [chain, h]

/-- Off-diagonal chains are dominated by the left diagonal chain. -/
theorem chain_le_diag_left (t : Str) : ∀ i j, chain t i j ≤ chain t i i := by
  intro i
  induction i with
  | zero =>
    intro j
    by_cases h : Valid t 0 j
    · simp [chain, h, valid_diag_left h]
    · simp [chain, h]
  | succ i ih =>
    intro j
    match j with
    | 0 =>
      by_cases h : Valid t (i + 1) 0
      · have hd := valid_diag_left h
        calc chain t (i + 1) 0 = 1 := by simp [chain, h]
          _ ≤ chain t i i + 1 := by omega
          _ = chain t (i + 1) (i + 1) := by simp [chain, hd]
      · simp [chain, h]
    | j + 1 =>
      by_cases h : Valid t (i + 1) (j + 1)
      · have hd := valid_diag_left h
        calc chain t (i + 1) (j + 1) = chain t i j + 1 := by simp [chain, h]
          _ ≤ chain t i i + 1 := by have := ih j; omega
          _ = chain t (i + 1) (i + 1) := by simp [chain, hd]
      · simp [chain, h]

/-- Off-diagonal chains are dominated by the right diagonal chain. -/
theorem chain_le_diag_right (t : Str) : ∀ i j, chain t i j ≤ chain t j j := by
  intro i
  induction i with
  | zero =>
    intro j
    by_cases h : Valid t 0 j
    · have hd := valid_diag_right h
      have h1 : chain t 0 j = 1 := by simp [chain, h]
      have := chain_pos_of_valid hd
      omega
    · simp [chain, h]
  | succ i ih =>
    intro j
    match j with
    | 0 =>
      by_cases h : Valid t (i + 1) 0
      · have hd := valid_diag_right h
        have h1 : chain t (i + 1) 0 = 1 := by simp [chain, h]
        have := chain_pos_of_valid hd
        omega
      · simp [chain, h]
    | j + 1 =>
      by_cases h : Valid t (i + 1) (j + 1)
      · have hd := valid_diag_right h
        calc chain t (i + 1) (j + 1) = chain t i j + 1 := by simp [chain, h]
          _ ≤ chain t j j + 1 := by have := ih j; omega
          _ = chain t (j + 1) (j + 1) := by simp [chain, hd]
      · simp [chain, h]

/-! ### The dynamic program on (t, t) returns a diagonal block. -/

/-- The row list of the dynamic program for a = b = t over the full region. -/
def jsRow (t : Str) (i : Nat) : List Nat := b2j t (t.getD i (Char.ofNat 0))

theorem valid_iff_jsRow {t : Str} {i j : Nat} :
    Valid t i j ↔ i < t.length ∧ j ∈ jsRow t i := Iff.rfl

theorem rowStep_self (t : Str) (st : (Nat → Nat) × Block) (i : Nat) :
    rowStep t t 0 t.length st i =
      (jsRow t i).foldl (innerStep i st.1) ((fun _ => 0 : Nat → Nat), st.2) := by
  unfold rowStep
  have h1 : ((b2j t (t.getD i (Char.ofNat 0))).dropWhile
      (fun j => decide (j < 0))).takeWhile (fun j => decide (j < t.length)) = jsRow t i := by
    rw [dropWhile_lt_zero]
    exact takeWhile_lt_all (fun x hx => (mem_b2j hx).1)
  rw [h1]

theorem chain_row_zero {t : Str} {j : Nat} (h : Valid t 0 j) : chain t 0 j = 1 := by
  match j with
  | 0 => simp [chain, h]
  | j + 1 => simp [chain, h]

theorem chain_row_succ {t : Str} {i : Nat} : ∀ {j : Nat}, Valid t (i + 1) j →
    chain t (i + 1) j = (match j with | 0 => 0 | Nat.succ j' => chain t i j') + 1 := by
  intro j
  match j with
  | 0 => intro h; simp [chain, h]
  | j + 1 => intro h; simp [chain, h]

/-- The previous-row dictionary contents: row i - 1 chains (constantly 0
before the first row). -/
def prevRow (t : Str) : Nat → Nat → Nat
  | 0, _ => 0
  | Nat.succ i', j => chain t i' j

/-- The lookup j2len.get(j - 1, 0) made by the inner loop. -/
def stepK (f : Nat → Nat) : Nat → Nat
  | 0 => 0
  | Nat.succ j' => f j'

theorem innerStep_eq (i : Nat) (old : Nat → Nat) (st : (Nat → Nat) × Block) (j : Nat) :
    innerStep i old st j =
      (Function.update st.1 j (stepK old j + 1),
       if st.2.size < stepK old j + 1 then
         Block.mk (i + 1 - (stepK old j + 1)) (j + 1 - (stepK old j + 1)) (stepK old j + 1)
       else st.2) := by
  cases j <;> rfl

theorem stepK_congr {f g : Nat → Nat} (h : ∀ x, f x = g x) (j : Nat) :
    stepK f j = stepK g j := by
  cases j with
  | zero => rfl
  | succ j' => exact h j'

theorem stepK_prevRow {t : Str} {i j : Nat} (h : Valid t i j) :
    stepK (prevRow t i) j + 1 = chain t i j := by
  match i, j with
  | 0, 0 => rw [chain_row_zero h]; rfl
  | 0, j + 1 => rw [chain_row_zero h]; rfl
  | i + 1, 0 => rw [chain_row_succ h]; rfl
  | i + 1, j + 1 => rw [chain_row_succ h]; rfl

/-- Invariant carried through the inner loop of one row of the dynamic
program on (t, t): the best block stays diagonal and dominates the chain of
every processed cell, and the new row dictionary records the chains of the
processed prefix. -/
theorem innerFold_self (t : Str) (i : Nat) (hi : i < t.length)
    (old : Nat → Nat) (hold : ∀ x, old x = prevRow t i x) :
    ∀ (l₂ l₁ : List Nat) (new : Nat → Nat) (best : Block),
    jsRow t i = l₁ ++ l₂ →
    best.i = best.j →
    best.i + best.size ≤ t.length →
    (∀ i' j, i' < i → j ∈ jsRow t i' → chain t i' j ≤ best.size) →
    (∀ j ∈ l₁, chain t i j ≤ best.size) →
    (∀ j, new j = if j ∈ l₁ then chain t i j else 0) →
    (l₂.foldl (innerStep i old) (new, best)).2.i =
        (l₂.foldl (innerStep i old) (new, best)).2.j ∧
    (l₂.foldl (innerStep i old) (new, best)).2.i +
        (l₂.foldl (innerStep i old) (new, best)).2.size ≤ t.length ∧
    (∀ i' j, i' < i → j ∈ jsRow t i' →
        chain t i' j ≤ (l₂.foldl (innerStep i old) (new, best)).2.size) ∧
    (∀ j ∈ jsRow t i, chain t i j ≤ (l₂.foldl (innerStep i old) (new, best)).2.size) ∧
    (∀ j, (l₂.foldl (innerStep i old) (new, best)).1 j =
        if j ∈ jsRow t i then chain t i j else 0) := by
  intro l₂
  induction l₂ with
  | nil =>
    intro l₁ new best hsplit hdiag hbound hprev hpref hnew
    simp only [List.foldl_nil]
    refine ⟨hdiag, hbound, hprev, ?_, ?_⟩
    · intro j hj
      exact hpref j (by simpa [hsplit] using hj)
    · intro j
      rw [hnew j, hsplit]
      simp
  | cons c l₂ ih =>
    intro l₁ new best hsplit hdiag hbound hprev hpref hnew
    have hcmem : c ∈ jsRow t i := by rw [hsplit]; simp
    have hvalid : Valid t i c := ⟨hi, hcmem⟩
    have hk : stepK old c + 1 = chain t i c := by
      rw [stepK_congr hold c]
      exact stepK_prevRow hvalid
    have hstep : innerStep i old (new, best) c =
        (Function.update new c (chain t i c),
          if best.size < chain t i c then
            Block.mk (i + 1 - chain t i c) (c + 1 - chain t i c) (chain t i c)
          else best) := by
      rw [innerStep_eq]
      simp only [hk]
    rw [List.foldl_cons, hstep]
    have hkle : chain t i c ≤ i + 1 := chain_le_left t i c
    by_cases hupd : best.size < chain t i c
    · -- an update happened; the updated cell must be diagonal: c = i
      have hci : c = i := by
        by_contra hne
        rcases Nat.lt_or_ge c i with hlt | hge
        · -- c < i: dominated by the diagonal cell (c, c) of an earlier row
          have h1 : chain t i c ≤ chain t c c := chain_le_diag_right t i c
          have h2 : Valid t c c := valid_diag_right hvalid
          have h3 : chain t c c ≤ best.size := hprev c c hlt h2.2
          omega
        · -- i < c: dominated by the diagonal cell (i, i) earlier in this row
          have hgt : i < c := by omega
          have h1 : chain t i c ≤ chain t i i := chain_le_diag_left t i c
          have h2 : Valid t i i := valid_diag_left hvalid
          have hii : i ∈ jsRow t i := h2.2
          have hil : i ∈ l₁ := by
            have hpw : (jsRow t i).Pairwise (· < ·) := b2j_pairwise t _
            rw [hsplit] at hpw hii
            rcases List.mem_append.1 hii with h | h
            · exact h
            · exfalso
              rcases List.mem_cons.1 h with h | h
              · omega
              · have := (List.pairwise_cons.1 (List.pairwise_append.1 hpw).2.1).1 i h
                omega
          have h3 : chain t i i ≤ best.size := hpref i hil
          omega
      refine ih (l₁ ++ [c]) _ _ (by rw [hsplit]; simp) ?_ ?_ ?_ ?_ ?_
      · simp only [if_pos hupd]
        omega
      · simp only [if_pos hupd]
        omega
      · intro i' j' hi' hj'
        have := hprev i' j' hi' hj'
        simp only [if_pos hupd]
        omega
      · intro j' hj'
        rcases List.mem_append.1 hj' with h | h
        · have := hpref j' h
          simp only [if_pos hupd]
          omega
        · have hj'c : j' = c := by simpa using h
          subst hj'c
          simp [if_pos hupd]
      · intro j'
        by_cases hj'c : j' = c
        · subst hj'c
          rw [Function.update_same]
          simp
        · rw [Function.update_noteq hj'c, hnew j']
          have hmem : (j' ∈ l₁ ++ [c]) ↔ j' ∈ l₁ := by simp [hj'c]
          simp only [hmem]
    · -- no update: the chain of the current cell is dominated already
      have hdom : chain t i c ≤ best.size := by omega
      refine ih (l₁ ++ [c]) _ _ (by rw [hsplit]; simp) ?_ ?_ ?_ ?_ ?_
      · simpa [if_neg hupd] using hdiag
      · simpa [if_neg hupd] using hbound
      · intro i' j' hi' hj'
        simpa [if_neg hupd] using hprev i' j' hi' hj'
      · intro j' hj'
        rcases List.mem_append.1 hj' with h | h
        · simpa [if_neg hupd] using hpref j' h
        · have hj'c : j' = c := by simpa using h
          subst hj'c
          simpa [if_neg hupd] using hdom
      · intro j'
        by_cases hj'c : j' = c
        · subst hj'c
          rw [Function.update_same]
          simp
        · rw [Function.update_noteq hj'c, hnew j']
          have hmem : (j' ∈ l₁ ++ [c]) ↔ j' ∈ l₁ := by simp [hj'c]
          simp only [hmem]

/-- Invariant carried through the rows of the dynamic program on (t, t). -/
theorem mainFold_self (t : Str) : ∀ r, r ≤ t.length →
    ((List.range' 0 r).foldl (fun st i => rowStep t t 0 t.length st i)
        ((fun _ => 0 : Nat → Nat), Block.mk 0 0 0)).2.i =
      ((List.range' 0 r).foldl (fun st i => rowStep t t 0 t.length st i)
        ((fun _ => 0 : Nat → Nat), Block.mk 0 0 0)).2.j ∧
    ((List.range' 0 r).foldl (fun st i => rowStep t t 0 t.length st i)
        ((fun _ => 0 : Nat → Nat), Block.mk 0 0 0)).2.i +
      ((List.range' 0 r).foldl (fun st i => rowStep t t 0 t.length st i)
        ((fun _ => 0 : Nat → Nat), Block.mk 0 0 0)).2.size ≤ t.length ∧
    (∀ i' j, i' < r → j ∈ jsRow t i' →
        chain t i' j ≤ ((List.range' 0 r).foldl (fun st i => rowStep t t 0 t.length st i)
          ((fun _ => 0 : Nat → Nat), Block.mk 0 0 0)).2.size) ∧
    (∀ j, ((List.range' 0 r).foldl (fun st i => rowStep t t 0 t.length st i)
        ((fun _ => 0 : Nat → Nat), Block.mk 0 0 0)).1 j = prevRow t r j) := by
  intro r
  induction r with
  | zero =>
    intro _
    refine ⟨rfl, by simp, ?_, ?_⟩
    · intro i' j h
      omega
    · intro j
      rfl
  | succ r ih =>
    intro hr
    have hr' : r ≤ t.length := by omega
    have hrn : r < t.length := by omega
    obtain ⟨hdiag, hbound, hprev, hrow⟩ := ih hr'
    have hconcat : List.range' 0 (r + 1) = List.range' 0 r ++ [r] := by
      rw [List.range'_concat]
      simp
    rw [hconcat, List.foldl_append]
    set st := (List.range' 0 r).foldl (fun st i => rowStep t t 0 t.length st i)
        ((fun _ => 0 : Nat → Nat), Block.mk 0 0 0) with hst
    simp only [List.foldl_cons, List.foldl_nil]
    rw [rowStep_self]
    obtain ⟨h1, h2, h3, h4, h5⟩ := innerFold_self t r hrn st.1 hrow (jsRow t r) []
      (fun _ => 0) st.2 (by simp) hdiag hbound hprev (by simp) (by simp)
    refine ⟨h1, h2, ?_, ?_⟩
    · intro i' j hi' hj
      rcases Nat.lt_or_ge i' r with h | h
      · exact h3 i' j h hj
      · have hieq : i' = r := by omega
        subst hieq
        exact h4 j hj
    · intro j
      rw [h5 j]
      by_cases hj : j ∈ jsRow t r
      · simp only [if_pos hj]
        rfl
      · rw [if_neg hj]
        have hv : ¬ Valid t r j := fun hv => hj hv.2
        exact ((chain_eq_zero_of_not_valid hv).symm : (0 : Nat) = chain t r j)

/-- On (t, t) over the full region, the dynamic program returns a diagonal
block not exceeding the string. -/
theorem mainLoop_self (t : Str) :
    (mainLoop t t 0 t.length 0 t.length).i = (mainLoop t t 0 t.length 0 t.length).j ∧
    (mainLoop t t 0 t.length 0 t.length).i + (mainLoop t t 0 t.length 0 t.length).size
      ≤ t.length := by
  obtain ⟨h1, h2, _, _⟩ := mainFold_self t t.length (le_refl _)
  unfold mainLoop
  simp only [Nat.sub_zero]
  exact ⟨h1, h2⟩

/-! ### The extension loops on (t, t) blow a diagonal block up to the whole
string. -/

theorem extendBack_self (t : Str) : ∀ d s,
    extendBack t t 0 0 d d s = Block.mk 0 0 (s + d) := by
  intro d
  induction d with
  | zero => intro s; rfl
  | succ d ih =>
    intro s
    have hcond : 0 < d + 1 ∧ 0 < d + 1 ∧
        isbjunk (t.getD (d + 1 - 1) (Char.ofNat 0)) = false ∧
        t.getD d (Char.ofNat 0) = t.getD (d + 1 - 1) (Char.ofNat 0) := by
      refine ⟨by omega, by omega, rfl, by simp⟩
    rw [extendBack, if_pos hcond]
    rw [show d + 1 - 1 = d by omega, ih (s + 1)]
    congr 1
    omega

theorem extendFwd_self (t : Str) : ∀ f s, s + f = t.length →
    extendFwd t t t.length t.length 0 0 f s = t.length := by
  intro f
  induction f with
  | zero =>
    intro s h
    show s = t.length
    omega
  | succ f ih =>
    intro s h
    have hcond : 0 + s < t.length ∧ 0 + s < t.length ∧
        isbjunk (t.getD (0 + s) (Char.ofNat 0)) = false ∧
        t.getD (0 + s) (Char.ofNat 0) = t.getD (0 + s) (Char.ofNat 0) := by
      refine ⟨by omega, by omega, rfl, rfl⟩
    rw [extendFwd, if_pos hcond]
    exact ih (s + 1) (by omega)

theorem extendBackJunk_id (a b : Str) (alo blo : Nat) : ∀ bi bj s,
    extendBackJunk a b alo blo bi bj s = Block.mk bi bj s := by
  intro bi bj s
  match bi with
  | 0 => rfl
  | bi + 1 =>
    rw [extendBackJunk, if_neg]
    intro h
    simpa [isbjunk] using h.2.2.1

theorem extendFwdJunk_id (a b : Str) (ahi bhi : Nat) (bi bj : Nat) : ∀ f s,
    extendFwdJunk a b ahi bhi bi bj f s = s := by
  intro f s
  match f with
  | 0 => rfl
  | f + 1 =>
    rw [extendFwdJunk, if_neg]
    intro h
    simpa [isbjunk] using h.2.2.1

/-- find_longest_match on (t, t) over the full region returns the whole
diagonal. -/
theorem flm_self (t : Str) :
    find_longest_match t t 0 t.length 0 t.length = Block.mk 0 0 t.length := by
  obtain ⟨hdiag, hbound⟩ := mainLoop_self t
  simp only [find_longest_match]
  rw [← hdiag, extendBack_self t _ _]
  simp only
  rw [extendFwd_self t _ _ (by simp only [Nat.zero_add]; omega)]
  rw [extendBackJunk_id]
  simp only
  rw [extendFwdJunk_id]
theorem gmbAux_nil (a b : Str) : ∀ f acc, gmbAux a b f [] acc = acc := by
  intro f acc
  cases f <;> rfl

/-- One unfolding step of the region stack. -/
theorem gmbAux_cons (a b : Str) (f alo ahi blo bhi : Nat)
    (queue : List (Nat × Nat × Nat × Nat)) (acc : List Block) :
    gmbAux a b (f + 1) ((alo, ahi, blo, bhi) :: queue) acc =
      (let m := find_longest_match a b alo ahi blo bhi
       if m.size ≠ 0 then
         let q1 : List (Nat × Nat × Nat × Nat) :=
           if alo < m.i ∧ blo < m.j then [(alo, m.i, blo, m.j)] else []
         let q2 : List (Nat × Nat × Nat × Nat) :=
           if m.i + m.size < ahi ∧ m.j + m.size < bhi then
             [(m.i + m.size, ahi, m.j + m.size, bhi)] else []
         gmbAux a b f (q2 ++ q1 ++ queue) (acc ++ [m])
       else gmbAux a b f queue acc) := rfl

theorem sortBy_singleton {α : Type} (le : α → α → Bool) (x : α) :
    sortBy le [x] = [x] := rfl

theorem collapseAux_cons (i1 j1 k1 : Nat) (m : Block) (rest : List Block) :
    collapseAux (i1, j1, k1) (m :: rest) =
      if i1 + k1 = m.i ∧ j1 + k1 = m.j then collapseAux (i1, j1, k1 + m.size) rest
      else (if k1 ≠ 0 then [Block.mk i1 j1 k1] else []) ++
        collapseAux (m.i, m.j, m.size) rest := rfl

theorem collapseAux_nil (i1 j1 k1 : Nat) :
    collapseAux (i1, j1, k1) [] = if k1 ≠ 0 then [Block.mk i1 j1 k1] else [] := rfl

/-- get_matching_blocks on a nonempty (t, t): a single full-length diagonal
block plus the sentinel. -/
theorem gmb_self_pos (t : Str) (h : t.length ≠ 0) :
    get_matching_blocks t t =
      [Block.mk 0 0 t.length, Block.mk t.length t.length 0] := by
  simp only [get_matching_blocks]
  rw [gmbAux_cons, flm_self t]
  simp only [ne_eq, h, not_false_eq_true, if_true]
  have hq2 : ¬ (0 + t.length < t.length ∧ 0 + t.length < t.length) := by omega
  simp only [lt_self_iff_false, false_and, if_false, hq2, List.nil_append, List.append_nil]
  rw [gmbAux_nil, sortBy_singleton, collapseAux_cons]
  simp [collapseAux_nil, h]

/-- get_matching_blocks on an empty (t, t) is just the sentinel. -/
theorem gmb_self_nil (t : Str) (h : t.length = 0) :
    get_matching_blocks t t = [Block.mk 0 0 0] := by
  simp only [get_matching_blocks]
  rw [gmbAux_cons, flm_self t]
  simp only [h]
  rfl

/-- find_longest_match against an empty b returns an empty match. -/
theorem rowStep_nil_right (a : Str) (st : (Nat → Nat) × Block) (i : Nat) :
    rowStep a [] 0 0 st i = ((fun _ => 0 : Nat → Nat), st.2) := rfl

theorem mainLoop_nil_right (a : Str) (ahi : Nat) :
    mainLoop a [] 0 ahi 0 0 = Block.mk 0 0 0 := by
  unfold mainLoop
  have key : ∀ (l : List Nat) (st : (Nat → Nat) × Block),
      (l.foldl (fun st i => rowStep a [] 0 0 st i) st).2 = st.2 := by
    intro l
    induction l with
    | nil => intro st; rfl
    | cons x xs ih =>
      intro st
      rw [List.foldl_cons, rowStep_nil_right]
      exact ih _
  exact key _ _

theorem extendFwd_bhi_zero (a b : Str) (ahi bi bj : Nat) : ∀ f s,
    extendFwd a b ahi 0 bi bj f s = s := by
  intro f s
  cases f with
  | zero => rfl
  | succ f =>
    rw [extendFwd, if_neg]
    intro h
    omega

theorem flm_nil_right (a : Str) (ahi : Nat) :
    find_longest_match a [] 0 ahi 0 0 = Block.mk 0 0 0 := by
  simp only [find_longest_match]
  rw [mainLoop_nil_right]
  show (let m1 := extendBack a [] 0 0 0 0 0;
    let s2 := extendFwd a [] ahi 0 m1.i m1.j (ahi - (m1.i + m1.size)) m1.size;
    let m2 := Block.mk m1.i m1.j s2;
    let m3 := extendBackJunk a [] 0 0 m2.i m2.j m2.size;
    let s4 := extendFwdJunk a [] ahi 0 m3.i m3.j (ahi - (m3.i + m3.size)) m3.size;
    Block.mk m3.i m3.j s4) = Block.mk 0 0 0
  have h1 : extendBack a [] 0 0 0 0 0 = Block.mk 0 0 0 := rfl
  rw [h1]
  simp only
  rw [extendFwd_bhi_zero]
  rw [extendBackJunk_id]
  simp only
  rw [extendFwdJunk_id]

/-- get_matching_blocks against an empty b is just the sentinel. -/
theorem gmb_nil_right (a : Str) :
    get_matching_blocks a [] = [Block.mk a.length 0 0] := by
  simp only [get_matching_blocks, List.length_nil]
  rw [gmbAux, flm_nil_right]
  simp only [ne_eq, not_true_eq_false, if_false, gmbAux_nil]
  rfl

end Difflib

/-- diff_size from scripts/screen_text_monitor.py lines 58-64: sum, over all
non-equal opcodes, of (i2 - i1) + (j2 - j1). -/
def diff_size (old new : Str) : Nat :=
  (Difflib.get_opcodes old new).foldl
    (fun changed op =>
      if op.tag ≠ Difflib.Tag.equal then changed + ((op.a2 - op.a1) + (op.b2 - op.b1))
      else changed) 0

/-- diff_size on Lean String values. -/
def diff_sizeS (old new : String) : Nat := diff_size old.data new.data

/-- diff_size of a text against itself is zero: the matcher finds the full
diagonal, so the only opcode is a single equal span. -/
theorem diff_size_self (t : Str) : diff_size t t = 0 := by
  unfold diff_size Difflib.get_opcodes
  by_cases h : t.length = 0
  · rw [Difflib.gmb_self_nil t h]
    simp [Difflib.opcodesAux]
  · rw [Difflib.gmb_self_pos t h]
    simp [Difflib.opcodesAux, h]

/-- diff_sizeS of a string against itself is zero. -/
theorem diff_sizeS_self (t : String) : diff_sizeS t t = 0 := diff_size_self t.data

/-- diff_size against the empty text is the full length of the other side:
the opcodes are a single delete span covering all of p. -/
theorem diff_size_nil_right (p : Str) : diff_size p [] = p.length := by
  unfold diff_size Difflib.get_opcodes
  rw [Difflib.gmb_nil_right]
  by_cases h : p.length = 0
  · simp [h, Difflib.opcodesAux]
  · have h' : 0 < p.length := Nat.pos_of_ne_zero h
    simp [Difflib.opcodesAux, h']

/-- String version of diff_size_nil_right. -/
theorem diff_sizeS_empty_right (p : String) : diff_sizeS p ("") = p.length := by
  unfold diff_sizeS
  have h : ("" : String).data = ([] : Str) := rfl
  rw [h, diff_size_nil_right]
  rfl

/-! ## Python str helpers used by the scripts -/

/-- Python str.isspace / str.strip default whitespace set: ASCII whitespace,
the whitespace control characters, and the Unicode space separators. -/
def pyIsSpace (c : Char) : Bool :=
  decide (c = ' ' ∨ c = Char.ofNat 9 ∨ c = Char.ofNat 10 ∨ c = Char.ofNat 13 ∨
    c = Char.ofNat 11 ∨ c = Char.ofNat 12 ∨ (28 ≤ c.toNat ∧ c.toNat ≤ 31) ∨
    c = Char.ofNat 133 ∨ c = Char.ofNat 160 ∨ c = Char.ofNat 5760 ∨
    (8192 ≤ c.toNat ∧ c.toNat ≤ 8202) ∨ c = Char.ofNat 8232 ∨ c = Char.ofNat 8233 ∨
    c = Char.ofNat 8239 ∨ c = Char.ofNat 8287 ∨ c = Char.ofNat 12288)

/-- Python str.strip() with no arguments: drop whitespace from both ends. -/
def pyStrip (l : Str) : Str :=
  ((l.dropWhile pyIsSpace).reverse.dropWhile pyIsSpace).reverse

/-- Python str.splitlines line-break set ('\r\n' handled as one break by the
splitter itself). -/
def isLineBreak (c : Char) : Bool :=
  decide (c = Char.ofNat 10 ∨ c = Char.ofNat 13 ∨ c = Char.ofNat 11 ∨ c = Char.ofNat 12 ∨
    c = Char.ofNat 28 ∨ c = Char.ofNat 29 ∨ c = Char.ofNat 30 ∨ c = Char.ofNat 133 ∨
    c = Char.ofNat 8232 ∨ c = Char.ofNat 8233)

/-- Python str.splitlines(keepends=False): cur accumulates the current line
in reverse; a final line without terminator is emitted, a trailing
terminator does not produce an extra empty line. -/
def splitlinesAux (cur : Str) : Str → List Str
  | [] => if cur = [] then [] else [cur.reverse]
  | c :: rest =>
    if c = Char.ofNat 13 then
      match rest with
      | c2 :: rest2 =>
        if c2 = Char.ofNat 10 then cur.reverse :: splitlinesAux [] rest2
        else cur.reverse :: splitlinesAux [] (c2 :: rest2)
      | [] => cur.reverse :: splitlinesAux [] []
    else if isLineBreak c then cur.reverse :: splitlinesAux [] rest
    else splitlinesAux (c :: cur) rest

/-- Python str.splitlines. -/
def splitlines (s : Str) : List Str := splitlinesAux [] s

/-- clean_text from TEST screen reader/screen_text_analyzer.py lines 96-99:
strip every line, drop empty lines, join with a newline. -/
def clean_textL (text : Str) : Str :=
  List.intercalate [Char.ofNat 10]
    (((splitlines text).map pyStrip).filter (fun l => decide (l ≠ [])))

/-- clean_text on Lean String values. -/
def clean_text (s : String) : String := String.mk (clean_textL s.data)

/-- The character class of the regex [ \t]+. -/
def isSpTab (c : Char) : Bool := decide (c = ' ' ∨ c = Char.ofNat 9)

/-- re.sub(r"[ \t]+", " ", text): every maximal run of spaces and tabs
becomes a single space; inRun tracks whether we are inside a run. -/
def collapseSpacesAux : Bool → Str → Str
  | _, [] => []
  | inRun, c :: rest =>
    if isSpTab c then
      if inRun then collapseSpacesAux true rest
      else ' ' :: collapseSpacesAux true rest
    else c :: collapseSpacesAux false rest

def collapseSpaces (l : Str) : Str := collapseSpacesAux false l

/-- The replacement for a run of `run` newlines under re.sub(r"\n{3,}", "\n\n"). -/
def emitNL (run : Nat) : Str := List.replicate (if 3 ≤ run then 2 else run) (Char.ofNat 10)

/-- re.sub(r"\n{3,}", "\n\n", text): runs of three or more newlines collapse
to exactly two; run counts pending newlines. -/
def collapseNewlinesAux (run : Nat) : Str → Str
  | [] => emitNL run
  | c :: rest =>
    if c = Char.ofNat 10 then collapseNewlinesAux (run + 1) rest
    else emitNL run ++ c :: collapseNewlinesAux 0 rest

def collapseNewlines (l : Str) : Str := collapseNewlinesAux 0 l

/-- normalize_text from scripts/screen_text_monitor.py lines 42-46:
remove carriage returns, collapse horizontal whitespace runs to one space,
collapse three-or-more newlines to two, strip both ends. -/
def normalize_textL (text : Str) : Str :=
  pyStrip (collapseNewlines (collapseSpaces
    (text.filter (fun c => decide (c ≠ Char.ofNat 13)))))

/-- normalize_text on Lean String values. -/
def normalize_text (s : String) : String := String.mk (normalize_textL s.data)

/-! ## hashlib.sha1

screen_text_analyzer.py line 225 computes
sha1(cleaned.encode("utf-8")).hexdigest().  The embedding is the standard
SHA-1 compression over the UTF-8 bytes; 32-bit machine words are Nat taken
modulo 2^32. -/

namespace SHA1

/-- 2^32. -/
def M32 : Nat := 4294967296

/-- Left rotation of a 32-bit word. -/
def rotl (n x : Nat) : Nat := ((x <<< n) % M32) ||| (x >>> (32 - n))

/-- k bytes of n, big-endian. -/
def toBytesBE (k : Nat) (n : Nat) : List Nat :=
  (List.range k).map (fun i => n / 2 ^ (8 * (k - 1 - i)) % 256)

/-- SHA-1 padding: 0x80, zeros to 56 mod 64, then the 64-bit big-endian
bit length. -/
def pad (msg : List Nat) : List Nat :=
  msg ++ [128] ++ List.replicate ((119 - msg.length % 64) % 64) 0 ++
    toBytesBE 8 (msg.length * 8)

/-- The 16 big-endian 32-bit words of a 64-byte chunk. -/
def wordsOfChunk (chunk : List Nat) : List Nat :=
  (List.range 16).map (fun i =>
    chunk.getD (4 * i) 0 * 16777216 + chunk.getD (4 * i + 1) 0 * 65536 +
    chunk.getD (4 * i + 2) 0 * 256 + chunk.getD (4 * i + 3) 0)

/-- Message-schedule extension to 80 words. -/
def extendWords (ws : List Nat) : List Nat :=
  (List.range 64).foldl (fun acc k =>
    acc ++ [rotl 1 (Nat.xor (Nat.xor (acc.getD (k + 13) 0) (acc.getD (k + 8) 0))
      (Nat.xor (acc.getD (k + 2) 0) (acc.getD k 0)))]) ws

/-- Round function. -/
def fRound (i b c d : Nat) : Nat :=
  if i < 20 then Nat.lor (Nat.land b c) (Nat.land (Nat.xor b 4294967295) d)
  else if i < 40 then Nat.xor b (Nat.xor c d)
  else if i < 60 then Nat.lor (Nat.lor (Nat.land b c) (Nat.land b d)) (Nat.land c d)
  else Nat.xor b (Nat.xor c d)

/-- Round constants. -/
def kRound (i : Nat) : Nat :=
  if i < 20 then 1518500249
  else if i < 40 then 1859775393
  else if i < 60 then 2400959708
  else 3395469782

/-- One 64-byte chunk of the compression function. -/
def compress (h : Nat × Nat × Nat × Nat × Nat) (chunk : List Nat) :
    Nat × Nat × Nat × Nat × Nat :=
  let ws := extendWords (wordsOfChunk chunk)
  let s := (List.range 80).foldl
    (fun (st : Nat × Nat × Nat × Nat × Nat) i =>
      let temp := (rotl 5 st.1 + fRound i st.2.1 st.2.2.1 st.2.2.2.1 + st.2.2.2.2 +
        kRound i + ws.getD i 0) % M32
      (temp, st.1, rotl 30 st.2.1, st.2.2.1, st.2.2.2.1))
    (h.1, h.2.1, h.2.2.1, h.2.2.2.1, h.2.2.2.2)
  ((h.1 + s.1) % M32, (h.2.1 + s.2.1) % M32, (h.2.2.1 + s.2.2.1) % M32,
    (h.2.2.2.1 + s.2.2.2.1) % M32, (h.2.2.2.2 + s.2.2.2.2) % M32)

/-- Split into 64-byte chunks; fuel is the list length at the call site. -/
def chunks : Nat → List Nat → List (List Nat)
  | 0, _ => []
  | _, [] => []
  | Nat.succ fuel, l => l.take 64 :: chunks fuel (l.drop 64)

/-- The five 32-bit state words of the SHA-1 digest of a byte string. -/
def sha1Words (msg : List Nat) : Nat × Nat × Nat × Nat × Nat :=
  (chunks (pad msg).length (pad msg)).foldl compress
    (1732584193, 4023233417, 2562383102, 271733878, 3285377520)

/-- Lowercase hex digit. -/
def hexDigit (n : Nat) : Char :=
  if n < 10 then Char.ofNat (48 + n) else Char.ofNat (87 + n)

/-- Eight lowercase hex digits of a 32-bit word, big-endian. -/
def wordHex8 (w : Nat) : List Char :=
  [hexDigit (w / 268435456 % 16), hexDigit (w / 16777216 % 16),
   hexDigit (w / 1048576 % 16), hexDigit (w / 65536 % 16),
   hexDigit (w / 4096 % 16), hexDigit (w / 256 % 16),
   hexDigit (w / 16 % 16), hexDigit (w % 16)]

end SHA1

/-- hashlib.sha1(s.encode("utf-8")).hexdigest(): forty lowercase hex
characters. -/
def sha1Hex (s : String) : String :=
  let h := SHA1.sha1Words (s.toUTF8.toList.map UInt8.toNat)
  String.mk (SHA1.wordHex8 h.1 ++ SHA1.wordHex8 h.2.1 ++ SHA1.wordHex8 h.2.2.1 ++
    SHA1.wordHex8 h.2.2.2.1 ++ SHA1.wordHex8 h.2.2.2.2)

/-- A SHA-1 hex digest always has forty characters. -/
theorem sha1Hex_length (s : String) : (sha1Hex s).length = 40 := by
  unfold sha1Hex
  simp [String.length, SHA1.wordHex8]

/-- A SHA-1 hex digest is never the empty string. -/
theorem sha1Hex_ne_empty (s : String) : sha1Hex s ≠ "" := by
  intro h
  have h40 := sha1Hex_length s
  rw [h] at h40
  simp [String.length] at h40

/-- Python str.strip() on Lean String values. -/
def pyStripS (s : String) : String := String.mk (pyStrip s.data)

/-! ## Idempotence machinery for the two normalizers -/

theorem dropWhile_head_false (p : Char → Bool) (l : Str) :
    ∀ c, (l.dropWhile p).head? = some c → p c = false := by
  intro c hc
  have h := List.head?_dropWhile_not p l
  rw [hc] at h
  exact h

theorem dropWhile_eq_self_of_head {p : Char → Bool} {l : Str}
    (h : ∀ c, l.head? = some c → p c = false) : l.dropWhile p = l := by
  cases l with
  | nil => rfl
  | cons a l => simp [List.dropWhile_cons, h a rfl]

/-- The first character of a stripped string is not whitespace. -/
theorem pyStrip_head (l : Str) :
    ∀ c, (pyStrip l).head? = some c → pyIsSpace c = false := by
  intro c hc
  unfold pyStrip at hc
  rw [List.head?_reverse] at hc
  obtain ⟨u, hu⟩ := List.dropWhile_suffix (l := (l.dropWhile pyIsSpace).reverse) pyIsSpace
  have hlast : ((l.dropWhile pyIsSpace).reverse).getLast? = some c := by
    rw [← hu, List.getLast?_append, hc]
    rfl
  rw [List.getLast?_reverse] at hlast
  exact dropWhile_head_false pyIsSpace l c hlast

/-- The last character of a stripped string is not whitespace. -/
theorem pyStrip_last (l : Str) :
    ∀ c, (pyStrip l).getLast? = some c → pyIsSpace c = false := by
  intro c hc
  unfold pyStrip at hc
  rw [List.getLast?_reverse] at hc
  exact dropWhile_head_false pyIsSpace _ c hc

/-- Stripping is the identity on strings with non-whitespace ends. -/
theorem pyStrip_eq_self {l : Str}
    (h1 : ∀ c, l.head? = some c → pyIsSpace c = false)
    (h2 : ∀ c, l.getLast? = some c → pyIsSpace c = false) : pyStrip l = l := by
  unfold pyStrip
  rw [dropWhile_eq_self_of_head h1]
  rw [dropWhile_eq_self_of_head (fun c hc => h2 c (by rwa [List.head?_reverse] at hc))]
  exact List.reverse_reverse l

/-- str.strip is idempotent. -/
theorem pyStrip_idem (l : Str) : pyStrip (pyStrip l) = pyStrip l :=
  pyStrip_eq_self (pyStrip_head l) (pyStrip_last l)

theorem pyStrip_subset {l : Str} {c : Char} (h : c ∈ pyStrip l) : c ∈ l := by
  unfold pyStrip at h
  rw [List.mem_reverse] at h
  have h2 := (List.dropWhile_sublist (l := (l.dropWhile pyIsSpace).reverse) pyIsSpace).subset h
  rw [List.mem_reverse] at h2
  exact (List.dropWhile_sublist pyIsSpace).subset h2

/-- The stripped string sits inside the original: a prefix and a suffix are
removed. -/
theorem pyStrip_split (l : Str) : ∃ u w, l = u ++ pyStrip l ++ w := by
  obtain ⟨u, hu⟩ := List.dropWhile_suffix (l := l) pyIsSpace
  obtain ⟨v, hv⟩ := List.dropWhile_suffix (l := (l.dropWhile pyIsSpace).reverse) pyIsSpace
  refine ⟨u, v.reverse, ?_⟩
  have hsplit : l.dropWhile pyIsSpace = pyStrip l ++ v.reverse := by
    have h3 := congrArg List.reverse hv
    rw [List.reverse_append, List.reverse_reverse] at h3
    exact h3.symm
  conv_lhs => rw [← hu]
  rw [hsplit, ← List.append_assoc]

/-- No character of a string is a line break. -/
def Breakless (l : Str) : Prop := ∀ c ∈ l, isLineBreak c = false

theorem breakless_pyStrip {l : Str} (h : Breakless l) : Breakless (pyStrip l) :=
  fun c hc => h c (pyStrip_subset hc)

theorem splitlinesAux_other (cur : Str) {c : Char} (rest : Str)
    (h1 : ¬ c = Char.ofNat 13) (h2 : isLineBreak c = false) :
    splitlinesAux cur (c :: rest) = splitlinesAux (c :: cur) rest := by
  rw [splitlinesAux.eq_def]
  dsimp only
  rw [if_neg h1, if_neg (show ¬ (isLineBreak c = true) by simp [h2])]

theorem splitlinesAux_break (cur : Str) {c : Char} (rest : Str)
    (h1 : ¬ c = Char.ofNat 13) (h2 : isLineBreak c = true) :
    splitlinesAux cur (c :: rest) = cur.reverse :: splitlinesAux [] rest := by
  rw [splitlinesAux.eq_def]
  dsimp only
  rw [if_neg h1, if_pos h2]

theorem splitlinesAux_cr_nl (cur rest : Str) :
    splitlinesAux cur (Char.ofNat 13 :: Char.ofNat 10 :: rest) =
      cur.reverse :: splitlinesAux [] rest := by
  simp only [splitlinesAux]
  simp

theorem splitlinesAux_cr_other (cur : Str) {c2 : Char} (rest : Str)
    (h : ¬ c2 = Char.ofNat 10) :
    splitlinesAux cur (Char.ofNat 13 :: c2 :: rest) =
      cur.reverse :: splitlinesAux [] (c2 :: rest) := by
  simp only [splitlinesAux]
  simp [h]

theorem splitlinesAux_cr_nil (cur : Str) :
    splitlinesAux cur [Char.ofNat 13] = cur.reverse :: splitlinesAux [] [] := by
  simp only [splitlinesAux]
  simp

/-- A lone newline emits the accumulated line. -/
theorem splitlinesAux_newline (cur s : Str) :
    splitlinesAux cur (Char.ofNat 10 :: s) = cur.reverse :: splitlinesAux [] s :=
  splitlinesAux_break cur s (by decide) (by decide)

/-- Consuming a breakless prefix just accumulates it. -/
theorem splitlinesAux_breakless_front : ∀ (l : Str), Breakless l → ∀ (cur s : Str),
    splitlinesAux cur (l ++ s) = splitlinesAux (l.reverse ++ cur) s := by
  intro l
  induction l with
  | nil => intro _ cur s; rfl
  | cons c l ih =>
    intro hb cur s
    have hc : isLineBreak c = false := hb c (by simp)
    have hcr : ¬ (c = Char.ofNat 13) := by
      intro hcc
      rw [hcc] at hc
      simp [isLineBreak] at hc
    rw [List.cons_append, splitlinesAux_other cur (l ++ s) hcr hc]
    rw [ih (fun d hd => hb d (by simp [hd])) (c :: cur) s]
    simp

/-- Every line splitlines produces is breakless. -/
theorem splitlinesAux_breakless : ∀ (n : Nat) (s cur : Str), s.length ≤ n →
    Breakless cur → ∀ l ∈ splitlinesAux cur s, Breakless l := by
  intro n
  induction n with
  | zero =>
    intro s cur hlen hcur l hl
    have hs : s = [] := List.length_eq_zero.1 (by omega)
    subst hs
    simp only [splitlinesAux] at hl
    by_cases hc : cur = []
    · simp [hc] at hl
    · rw [if_neg hc] at hl
      have hcl : l = cur.reverse := by simpa using hl
      subst hcl
      intro d hd
      exact hcur d (by rwa [List.mem_reverse] at hd)
  | succ n ih =>
    intro s cur hlen hcur l hl
    have hrevcur : Breakless (List.reverse cur) := by
      intro d hd
      exact hcur d (by rwa [List.mem_reverse] at hd)
    have hnilcur : Breakless ([] : Str) := by
      intro d hd
      simp at hd
    match s with
    | [] => exact ih [] cur (by simp) hcur l hl
    | c :: rest =>
      by_cases hcr : c = Char.ofNat 13
      · subst hcr
        match rest with
        | [] =>
          rw [splitlinesAux_cr_nil] at hl
          rcases List.mem_cons.1 hl with h | h
          · subst h; exact hrevcur
          · exact ih [] [] (by simp) hnilcur l h
        | c2 :: rest2 =>
          by_cases h10 : c2 = Char.ofNat 10
          · subst h10
            rw [splitlinesAux_cr_nl] at hl
            rcases List.mem_cons.1 hl with h | h
            · subst h; exact hrevcur
            · refine ih rest2 [] ?_ hnilcur l h
              simp at hlen
              omega
          · rw [splitlinesAux_cr_other cur rest2 h10] at hl
            rcases List.mem_cons.1 hl with h | h
            · subst h; exact hrevcur
            · refine ih (c2 :: rest2) [] ?_ hnilcur l h
              simp at hlen
              simp
              omega
      · by_cases hbr : isLineBreak c
        · rw [splitlinesAux_break cur rest hcr hbr] at hl
          rcases List.mem_cons.1 hl with h | h
          · subst h; exact hrevcur
          · refine ih rest [] ?_ hnilcur l h
            simp at hlen
            omega
        · rw [splitlinesAux_other cur rest hcr (by simpa using hbr)] at hl
          refine ih rest (c :: cur) ?_ ?_ l hl
          · simp at hlen
            omega
          · intro d hd
            rcases List.mem_cons.1 hd with h | h
            · subst h
              simpa using hbr
            · exact hcur d h

theorem splitlines_breakless (s : Str) : ∀ l ∈ splitlines s, Breakless l :=
  splitlinesAux_breakless s.length s [] (le_refl _) (by intro d hd; simp at hd)

theorem intercalate_cons_cons {α : Type} (sep : List α) (x y : List α)
    (xs : List (List α)) :
    List.intercalate sep (x :: y :: xs) = x ++ sep ++ List.intercalate sep (y :: xs) := by
  simp [List.intercalate]

/-- Joining nonempty breakless lines with a newline and splitting again
recovers the lines. -/
theorem splitlines_intercalate : ∀ (ls : List Str), (∀ l ∈ ls, Breakless l) →
    (∀ l ∈ ls, l ≠ []) →
    splitlines (List.intercalate [Char.ofNat 10] ls) = ls := by
  intro ls
  induction ls with
  | nil => intro _ _; rfl
  | cons l ls ih =>
    intro hb hne
    match ls with
    | [] =>
      have hbl : Breakless l := hb l (by simp)
      have hlne : l ≠ [] := hne l (by simp)
      show splitlinesAux [] (List.intercalate [Char.ofNat 10] [l]) = [l]
      have hinter : List.intercalate [Char.ofNat 10] [l] = l ++ [] := by
        simp [List.intercalate]
      rw [hinter, splitlinesAux_breakless_front l hbl [] []]
      simp only [splitlinesAux]
      rw [if_neg (by simpa using hlne)]
      simp
    | m :: ls' =>
      have hbl : Breakless l := hb l (by simp)
      have hrec : splitlinesAux [] (List.intercalate [Char.ofNat 10] (m :: ls')) =
          m :: ls' :=
        ih (fun x hx => hb x (by simp [hx])) (fun x hx => hne x (by simp [hx]))
      show splitlinesAux [] (List.intercalate [Char.ofNat 10] (l :: m :: ls')) =
        l :: m :: ls'
      rw [intercalate_cons_cons, List.append_assoc,
        splitlinesAux_breakless_front l hbl [] _, List.append_nil]
      rw [show ([Char.ofNat 10] ++ List.intercalate [Char.ofNat 10] (m :: ls')) =
        Char.ofNat 10 :: List.intercalate [Char.ofNat 10] (m :: ls') from rfl]
      rw [splitlinesAux_newline, List.reverse_reverse, hrec]

/-- clean_text is idempotent. -/
theorem clean_textL_idem (x : Str) : clean_textL (clean_textL x) = clean_textL x := by
  unfold clean_textL
  set ls := ((splitlines x).map pyStrip).filter (fun l => decide (l ≠ [])) with hls
  have hb : ∀ l ∈ ls, Breakless l := by
    intro l hl
    have hmap := List.mem_of_mem_filter hl
    obtain ⟨m, hm, rfl⟩ := List.mem_map.1 hmap
    exact breakless_pyStrip (splitlines_breakless x m hm)
  have hne : ∀ l ∈ ls, l ≠ [] := by
    intro l hl
    have := List.of_mem_filter hl
    simpa using this
  have hstripped : ∀ l ∈ ls, pyStrip l = l := by
    intro l hl
    have hmap := List.mem_of_mem_filter hl
    obtain ⟨m, hm, rfl⟩ := List.mem_map.1 hmap
    exact pyStrip_idem m
  rw [splitlines_intercalate ls hb hne]
  have hmap : ls.map pyStrip = ls := by
    rw [show ls.map pyStrip = ls.map id from List.map_congr_left hstripped, List.map_id]
  rw [hmap, List.filter_eq_self.2 (fun l hl => by simpa using hne l hl)]

/-! ### normalize_text: invariants of the three rewriting stages -/

/-- No tab characters. -/
def NoTab (l : Str) : Prop := ∀ c ∈ l, ¬ c = Char.ofNat 9

/-- No two adjacent spaces. -/
def SpChainOk (l : Str) : Prop := List.Chain' (fun a b => ¬ (a = ' ' ∧ b = ' ')) l

theorem collapseSpacesAux_cons (b : Bool) (c : Char) (rest : Str) :
    collapseSpacesAux b (c :: rest) =
      if isSpTab c then
        (if b then collapseSpacesAux true rest else ' ' :: collapseSpacesAux true rest)
      else c :: collapseSpacesAux false rest := rfl

/-- collapseSpacesAux is the identity on tab-free texts without adjacent
spaces (inside a run, additionally, the head must not be a space). -/
theorem collapseSpacesAux_eq_self : ∀ (l : Str), NoTab l → SpChainOk l →
    ∀ b : Bool, (b = true → ∀ c, l.head? = some c → isSpTab c = false) →
    collapseSpacesAux b l = l := by
  intro l
  induction l with
  | nil => intro _ _ b _; cases b <;> rfl
  | cons c rest ih =>
    intro hnt hch b hb
    have hnt' : NoTab rest := fun d hd => hnt d (List.mem_cons_of_mem c hd)
    have hch' : SpChainOk rest := (List.chain'_cons'.1 hch).2
    rw [collapseSpacesAux_cons]
    by_cases hsp : isSpTab c = true
    · rw [if_pos hsp]
      cases b with
      | true => exact absurd (hb rfl c rfl) (by simp [hsp])
      | false =>
        rw [if_neg Bool.false_ne_true]
        have hc : c = ' ' := by
          rcases (by simpa [isSpTab] using hsp : c = ' ' ∨ c = Char.ofNat 9) with h | h
          · exact h
          · exact absurd h (hnt c (by simp))
        have hhead : ∀ d, rest.head? = some d → isSpTab d = false := by
          intro d hd
          have hrel : ¬ (c = ' ' ∧ d = ' ') := (List.chain'_cons'.1 hch).1 d hd
          have hds : ¬ d = ' ' := fun hds => hrel ⟨hc, hds⟩
          have hdt : ¬ d = Char.ofNat 9 := hnt' d (List.mem_of_mem_head? hd)
          simp [isSpTab, hds, hdt]
        rw [ih hnt' hch' true (fun _ => hhead), hc]
    · rw [if_neg hsp, ih hnt' hch' false (fun h => absurd h Bool.false_ne_true)]

/-- The output of collapseSpacesAux is tab-free, has no adjacent spaces,
and inside a run starts with a non-space. -/
theorem collapseSpacesAux_good : ∀ (l : Str) (b : Bool),
    NoTab (collapseSpacesAux b l) ∧ SpChainOk (collapseSpacesAux b l) ∧
    (b = true → ∀ c, (collapseSpacesAux b l).head? = some c → isSpTab c = false) := by
  intro l
  induction l with
  | nil =>
    intro b
    refine ⟨?_, ?_, ?_⟩ <;> cases b <;> simp [collapseSpacesAux, NoTab, SpChainOk]
  | cons c rest ih =>
    intro b
    rw [collapseSpacesAux_cons]
    by_cases hsp : isSpTab c = true
    · rw [if_pos hsp]
      cases b with
      | true =>
        rw [if_pos rfl]
        obtain ⟨ha, hb', hc'⟩ := ih true
        exact ⟨ha, hb', fun _ => hc' rfl⟩
      | false =>
        rw [if_neg Bool.false_ne_true]
        obtain ⟨ha, hb', hc'⟩ := ih true
        refine ⟨?_, ?_, fun h => absurd h Bool.false_ne_true⟩
        · intro d hd
          rcases List.mem_cons.1 hd with h | h
          · subst h; decide
          · exact ha d h
        · refine List.chain'_cons'.2 ⟨?_, hb'⟩
          intro y hy hcon
          have hys := hc' rfl y hy
          rw [hcon.2] at hys
          simp [isSpTab] at hys
    · rw [if_neg hsp]
      obtain ⟨ha, hb', _⟩ := ih false
      refine ⟨?_, ?_, ?_⟩
      · intro d hd
        rcases List.mem_cons.1 hd with h | h
        · subst h
          intro hcon
          exact hsp (by simp [isSpTab, hcon])
        · exact ha d h
      · refine List.chain'_cons'.2 ⟨?_, hb'⟩
        intro y _ hcon
        exact hsp (by simp [isSpTab, hcon.1])
      · intro _ d hd
        have hdc : c = d := by simpa using hd
        rw [← hdc]
        exact Bool.eq_false_iff.2 hsp

/-- Characters of the collapsed-space text come from the input or are
spaces. -/
theorem mem_collapseSpacesAux : ∀ (l : Str) (b : Bool) (c : Char),
    c ∈ collapseSpacesAux b l → c ∈ l ∨ c = ' ' := by
  intro l
  induction l with
  | nil => intro b c h; cases b <;> simp [collapseSpacesAux] at h
  | cons d rest ih =>
    intro b c h
    rw [collapseSpacesAux_cons] at h
    by_cases hsp : isSpTab d = true
    · rw [if_pos hsp] at h
      cases b with
      | true =>
        rw [if_pos rfl] at h
        rcases ih true c h with h2 | h2
        · exact Or.inl (List.mem_cons_of_mem d h2)
        · exact Or.inr h2
      | false =>
        rw [if_neg Bool.false_ne_true] at h
        rcases List.mem_cons.1 h with h2 | h2
        · exact Or.inr h2
        · rcases ih true c h2 with h3 | h3
          · exact Or.inl (List.mem_cons_of_mem d h3)
          · exact Or.inr h3
    · rw [if_neg hsp] at h
      rcases List.mem_cons.1 h with h2 | h2
      · exact Or.inl (by simp [h2])
      · rcases ih false c h2 with h3 | h3
        · exact Or.inl (List.mem_cons_of_mem d h3)
        · exact Or.inr h3

/-- No run of three consecutive newlines, as a scanning predicate. -/
def noTriple : Str → Bool
  | c1 :: c2 :: c3 :: rest =>
    if c1 = Char.ofNat 10 ∧ c2 = Char.ofNat 10 ∧ c3 = Char.ofNat 10 then false
    else noTriple (c2 :: c3 :: rest)
  | _ => true

theorem noTriple_three (c1 c2 c3 : Char) (rest : Str) :
    noTriple (c1 :: c2 :: c3 :: rest) =
      if c1 = Char.ofNat 10 ∧ c2 = Char.ofNat 10 ∧ c3 = Char.ofNat 10 then false
      else noTriple (c2 :: c3 :: rest) := rfl

theorem noTriple_tail {c : Char} {l : Str} (h : noTriple (c :: l) = true) :
    noTriple l = true := by
  match l with
  | [] => rfl
  | [d] => rfl
  | d :: e :: t =>
    rw [noTriple_three] at h
    by_cases hcon : c = Char.ofNat 10 ∧ d = Char.ofNat 10 ∧ e = Char.ofNat 10
    · rw [if_pos hcon] at h; cases h
    · rwa [if_neg hcon] at h

theorem noTriple_cons1 {c : Char} {x : Str} (hc : ¬ c = Char.ofNat 10)
    (hx : noTriple x = true) : noTriple (c :: x) = true := by
  match x with
  | [] => rfl
  | [d] => rfl
  | d :: e :: t =>
    rw [noTriple_three, if_neg (fun hcon => hc hcon.1)]
    exact hx

theorem noTriple_cons2 (c1 : Char) {c2 : Char} {x : Str} (h2 : ¬ c2 = Char.ofNat 10)
    (hx : noTriple (c2 :: x) = true) : noTriple (c1 :: c2 :: x) = true := by
  match x with
  | [] => rfl
  | e :: t =>
    rw [noTriple_three, if_neg (fun hcon => h2 hcon.2.1)]
    exact hx

theorem noTriple_append_right : ∀ (u l : Str), noTriple (u ++ l) = true →
    noTriple l = true := by
  intro u
  induction u with
  | nil => intro l h; exact h
  | cons c u ih =>
    intro l h
    rw [List.cons_append] at h
    exact ih l (noTriple_tail h)

theorem noTriple_append_left : ∀ (u v : Str), noTriple (u ++ v) = true →
    noTriple u = true := by
  intro u
  induction u with
  | nil => intro v _; rfl
  | cons c u ih =>
    intro v h
    rcases u with _ | ⟨d, _ | ⟨e, t⟩⟩
    · rfl
    · rfl
    · simp only [List.cons_append] at h
      rw [noTriple_three] at h
      rw [noTriple_three]
      by_cases hcon : c = Char.ofNat 10 ∧ d = Char.ofNat 10 ∧ e = Char.ofNat 10
      · rw [if_pos hcon] at h; cases h
      · rw [if_neg hcon] at h ⊢
        exact ih v (by simpa only [List.cons_append] using h)

theorem noTriple_pyStrip {l : Str} (h : noTriple l = true) :
    noTriple (pyStrip l) = true := by
  obtain ⟨u, w, hw⟩ := pyStrip_split l
  rw [hw] at h
  exact noTriple_append_right u _ (noTriple_append_left _ w h)

theorem emitNL_eq {r : Nat} (hr : r ≤ 2) :
    emitNL r = List.replicate r (Char.ofNat 10) := by
  unfold emitNL
  rw [if_neg (by omega)]

theorem collapseNewlinesAux_nil (r : Nat) : collapseNewlinesAux r [] = emitNL r := rfl

theorem collapseNewlinesAux_cons (r : Nat) (c : Char) (rest : Str) :
    collapseNewlinesAux r (c :: rest) =
      if c = Char.ofNat 10 then collapseNewlinesAux (r + 1) rest
      else emitNL r ++ c :: collapseNewlinesAux 0 rest := rfl

/-- collapseNewlines is the identity on texts with no three consecutive
newlines (r counts pending newlines already consumed). -/
theorem collapseNewlinesAux_eq_self : ∀ (l : Str) (r : Nat), r ≤ 2 →
    noTriple (List.replicate r (Char.ofNat 10) ++ l) = true →
    collapseNewlinesAux r l = List.replicate r (Char.ofNat 10) ++ l := by
  intro l
  induction l with
  | nil =>
    intro r hr _
    rw [collapseNewlinesAux_nil, emitNL_eq hr, List.append_nil]
  | cons c rest ih =>
    intro r hr h
    rw [collapseNewlinesAux_cons]
    by_cases hc : c = Char.ofNat 10
    · rw [if_pos hc]
      have heq : List.replicate r (Char.ofNat 10) ++ c :: rest =
          List.replicate (r + 1) (Char.ofNat 10) ++ rest := by
        rw [hc, List.replicate_succ', List.append_assoc]
        rfl
      rw [heq] at h ⊢
      have hr2 : r + 1 ≤ 2 := by
        by_contra hgt
        have hr3 : r = 2 := by omega
        subst hr3
        rw [show List.replicate 3 (Char.ofNat 10) ++ rest =
          Char.ofNat 10 :: Char.ofNat 10 :: Char.ofNat 10 :: rest from rfl] at h
        rw [noTriple_three, if_pos ⟨rfl, rfl, rfl⟩] at h
        cases h
      exact ih (r + 1) hr2 h
    · rw [if_neg hc, emitNL_eq hr]
      have hrest : noTriple rest = true :=
        noTriple_tail (noTriple_append_right _ _ h)
      rw [ih 0 (by omega) (by simpa using hrest)]
      simp

theorem noTriple_emit_cons (r : Nat) {c : Char} (x : Str) (hc : ¬ c = Char.ofNat 10)
    (hx : noTriple (c :: x) = true) : noTriple (emitNL r ++ c :: x) = true := by
  by_cases h3 : 3 ≤ r
  · rw [show emitNL r = List.replicate 2 (Char.ofNat 10) from by
      unfold emitNL
      rw [if_pos h3]]
    show noTriple (Char.ofNat 10 :: Char.ofNat 10 :: c :: x) = true
    rw [noTriple_three, if_neg (fun hcon => hc hcon.2.2)]
    exact noTriple_cons2 _ hc hx
  · have hr : r = 0 ∨ r = 1 ∨ r = 2 := by omega
    rcases hr with h | h | h <;> subst h
    · show noTriple (c :: x) = true
      exact hx
    · show noTriple (Char.ofNat 10 :: c :: x) = true
      exact noTriple_cons2 _ hc hx
    · show noTriple (Char.ofNat 10 :: Char.ofNat 10 :: c :: x) = true
      rw [noTriple_three, if_neg (fun hcon => hc hcon.2.2)]
      exact noTriple_cons2 _ hc hx

/-- The output of collapseNewlines has no three consecutive newlines. -/
theorem collapseNewlinesAux_noTriple : ∀ (l : Str) (r : Nat),
    noTriple (collapseNewlinesAux r l) = true := by
  intro l
  induction l with
  | nil =>
    intro r
    rw [collapseNewlinesAux_nil]
    unfold emitNL
    by_cases h3 : 3 ≤ r
    · rw [if_pos h3]; rfl
    · rw [if_neg h3]
      have hr : r = 0 ∨ r = 1 ∨ r = 2 := by omega
      rcases hr with h | h | h <;> subst h <;> rfl
  | cons c rest ih =>
    intro r
    rw [collapseNewlinesAux_cons]
    by_cases hc : c = Char.ofNat 10
    · rw [if_pos hc]
      exact ih (r + 1)
    · rw [if_neg hc]
      exact noTriple_emit_cons r _ hc (noTriple_cons1 hc (ih 0))

/-- Characters of the collapsed-newline text come from the input or are
newlines. -/
theorem mem_collapseNewlinesAux : ∀ (l : Str) (r : Nat) (c : Char),
    c ∈ collapseNewlinesAux r l → c ∈ l ∨ c = Char.ofNat 10 := by
  intro l
  induction l with
  | nil =>
    intro r c h
    rw [collapseNewlinesAux_nil] at h
    unfold emitNL at h
    exact Or.inr (List.eq_of_mem_replicate h)
  | cons d rest ih =>
    intro r c h
    rw [collapseNewlinesAux_cons] at h
    by_cases hd : d = Char.ofNat 10
    · rw [if_pos hd] at h
      rcases ih (r + 1) c h with h2 | h2
      · exact Or.inl (List.mem_cons_of_mem d h2)
      · exact Or.inr h2
    · rw [if_neg hd] at h
      rcases List.mem_append.1 h with h2 | h2
      · unfold emitNL at h2
        exact Or.inr (List.eq_of_mem_replicate h2)
      · rcases List.mem_cons.1 h2 with h3 | h3
        · exact Or.inl (by simp [h3])
        · rcases ih 0 c h3 with h4 | h4
          · exact Or.inl (List.mem_cons_of_mem d h4)
          · exact Or.inr h4

/-- The head of the collapsed-newline text is a newline or, with no pending
newline run, the head of the input. -/
theorem collapseNewlinesAux_head : ∀ (l : Str) (r : Nat) (c : Char),
    (collapseNewlinesAux r l).head? = some c →
    c = Char.ofNat 10 ∨ (r = 0 ∧ l.head? = some c) := by
  intro l
  induction l with
  | nil =>
    intro r c h
    refine Or.inl (List.eq_of_mem_replicate (n := if 3 ≤ r then 2 else r) ?_)
    exact List.mem_of_mem_head? h
  | cons d rest ih =>
    intro r c h
    rw [collapseNewlinesAux_cons] at h
    by_cases hd : d = Char.ofNat 10
    · rw [if_pos hd] at h
      rcases ih (r + 1) c h with h2 | h2
      · exact Or.inl h2
      · exact absurd h2.1 (by omega)
    · rw [if_neg hd] at h
      by_cases h3 : 3 ≤ r
      · rw [show emitNL r = List.replicate 2 (Char.ofNat 10) from by
          unfold emitNL
          rw [if_pos h3]] at h
        have h4 : Char.ofNat 10 = c := by simpa using h
        exact Or.inl h4.symm
      · have hr : r = 0 ∨ r = 1 ∨ r = 2 := by omega
        rcases hr with hr | hr | hr <;> subst hr
        · rw [show emitNL 0 = ([] : Str) from rfl, List.nil_append] at h
          refine Or.inr ⟨rfl, ?_⟩
          simpa using h
        · rw [show emitNL 1 = [Char.ofNat 10] from rfl] at h
          have h4 : Char.ofNat 10 = c := by simpa using h
          exact Or.inl h4.symm
        · rw [show emitNL 2 = [Char.ofNat 10, Char.ofNat 10] from rfl] at h
          have h4 : Char.ofNat 10 = c := by simpa using h
          exact Or.inl h4.symm

/-- collapseNewlines preserves absence of adjacent spaces. -/
theorem collapseNewlinesAux_spOk : ∀ (l : Str), SpChainOk l → ∀ r,
    SpChainOk (collapseNewlinesAux r l) := by
  intro l
  induction l with
  | nil =>
    intro _ r
    rw [collapseNewlinesAux_nil]
    unfold SpChainOk emitNL
    exact List.chain'_replicate_of_rel _ (by decide)
  | cons c rest ih =>
    intro hch r
    rw [collapseNewlinesAux_cons]
    by_cases hc : c = Char.ofNat 10
    · rw [if_pos hc]
      exact ih (List.chain'_cons'.1 hch).2 (r + 1)
    · rw [if_neg hc]
      refine List.chain'_append.2 ⟨?_, ?_, ?_⟩
      · unfold emitNL
        exact List.chain'_replicate_of_rel _ (by decide)
      · refine List.chain'_cons'.2 ⟨?_, ih (List.chain'_cons'.1 hch).2 0⟩
        intro y hy
        rcases collapseNewlinesAux_head rest 0 y hy with h2 | h2
        · intro hcon
          rw [h2] at hcon
          exact absurd hcon.2 (by decide)
        · exact (List.chain'_cons'.1 hch).1 y h2.2
      · intro x hx y _
        have hmem : x ∈ emitNL r := List.mem_of_mem_getLast? hx
        have hxnl : x = Char.ofNat 10 := by
          unfold emitNL at hmem
          exact List.eq_of_mem_replicate hmem
        intro hcon
        rw [hxnl] at hcon
        exact absurd hcon.1 (by decide)

/-- normalize_text is idempotent on character lists. -/
theorem normalize_textL_idem (x : Str) :
    normalize_textL (normalize_textL x) = normalize_textL x := by
  have hcr : ∀ c ∈ normalize_textL x, ¬ c = Char.ofNat 13 := by
    intro c hc
    have hc1 : c ∈ collapseNewlines (collapseSpaces
        (x.filter (fun d => decide (d ≠ Char.ofNat 13)))) := pyStrip_subset hc
    rcases mem_collapseNewlinesAux _ 0 c hc1 with hc2 | hc2
    · rcases mem_collapseSpacesAux _ false c hc2 with hc3 | hc3
      · have hp := List.of_mem_filter hc3
        simpa using hp
      · rw [hc3]; decide
    · rw [hc2]; decide
  have hnt : NoTab (normalize_textL x) := by
    intro c hc
    have hc1 : c ∈ collapseNewlines (collapseSpaces
        (x.filter (fun d => decide (d ≠ Char.ofNat 13)))) := pyStrip_subset hc
    rcases mem_collapseNewlinesAux _ 0 c hc1 with hc2 | hc2
    · exact (collapseSpacesAux_good _ false).1 c hc2
    · rw [hc2]; decide
  have hsp : SpChainOk (normalize_textL x) := by
    have h1 : SpChainOk (collapseSpacesAux false
        (x.filter (fun d => decide (d ≠ Char.ofNat 13)))) :=
      (collapseSpacesAux_good _ false).2.1
    have h2 : SpChainOk (collapseNewlines (collapseSpaces
        (x.filter (fun d => decide (d ≠ Char.ofNat 13))))) :=
      collapseNewlinesAux_spOk _ h1 0
    obtain ⟨u, w, hw⟩ := pyStrip_split (collapseNewlines (collapseSpaces
        (x.filter (fun d => decide (d ≠ Char.ofNat 13)))))
    rw [hw] at h2
    exact (List.chain'_append.1 (List.chain'_append.1 h2).1).2.1
  have h3 : noTriple (normalize_textL x) = true :=
    noTriple_pyStrip (collapseNewlinesAux_noTriple _ 0)
  show pyStrip (collapseNewlines (collapseSpaces
    ((normalize_textL x).filter (fun d => decide (d ≠ Char.ofNat 13))))) = normalize_textL x
  rw [List.filter_eq_self.2 (fun c hc => by simpa using hcr c hc)]
  rw [show collapseSpaces (normalize_textL x) = normalize_textL x from
    collapseSpacesAux_eq_self _ hnt hsp false (fun h => absurd h Bool.false_ne_true)]
  rw [show collapseNewlines (normalize_textL x) = normalize_textL x from by
    have h4 := collapseNewlinesAux_eq_self (normalize_textL x) 0 (by omega) (by simpa using h3)
    simpa using h4]
  exact pyStrip_idem _

/-! ### analyze_text (screen_text_analyzer.py lines 102-138)

The regular expressions of analyze_text are hand-compiled scanners over the
character list.  re.findall and re.finditer scan left to right, attempt a
match at each position, advance by one character on failure and resume
right after the end of each match.  The word classes and str.lower are used
by the program on OCR text; the embedding implements their ASCII fragments,
which agree with Python on ASCII input. -/

def isAsciiAlpha (c : Char) : Bool :=
  decide ('a' ≤ c ∧ c ≤ 'z') || decide ('A' ≤ c ∧ c ≤ 'Z')

def isAsciiDigit (c : Char) : Bool := decide ('0' ≤ c ∧ c ≤ '9')

/-- The regex word class: letters, digits, underscore (ASCII fragment). -/
def isWordChar (c : Char) : Bool :=
  isAsciiAlpha c || isAsciiDigit c || decide (c = Char.ofNat 95)

/-- str.lower (ASCII fragment). -/
def pyLower (l : Str) : Str := l.map Char.toLower

/-- Tail class of the word pattern: letters, apostrophe, hyphen. -/
def wordTail (c : Char) : Bool :=
  isAsciiAlpha c || decide (c = Char.ofNat 39) || decide (c = '-')

/-- Scanner for the word pattern (a letter followed by one or more tail
characters, both parts greedy). -/
def findWordsAux : Nat → Str → List Str
  | 0, _ => []
  | _, [] => []
  | Nat.succ fuel, c :: rest =>
    if isAsciiAlpha c then
      let t := rest.takeWhile wordTail
      if t.length = 0 then findWordsAux fuel rest
      else (c :: t) :: findWordsAux fuel (rest.drop t.length)
    else findWordsAux fuel rest

def findWords (l : Str) : List Str := findWordsAux (l.length + 1) l

/-- STOP_WORDS of screen_text_analyzer.py lines 28-65. -/
def STOP_WORDS : List Str := List.map String.data
  ["the", "and", "for", "that", "with", "you", "this", "from", "have", "are",
   "your", "was", "will", "can", "all", "not", "but", "has", "its", "they",
   "what", "when", "where", "how", "why", "then", "into", "about", "there",
   "their", "them", "just", "more", "some", "out", "any"]

def counterAdd (acc : List (Str × Nat)) (w : Str) : List (Str × Nat) :=
  if acc.any (fun p => decide (p.1 = w)) then
    acc.map (fun p => if p.1 = w then (p.1, p.2 + 1) else p)
  else acc ++ [(w, 1)]

/-- collections.Counter: counts in first-occurrence order. -/
def counter (ws : List Str) : List (Str × Nat) := ws.foldl counterAdd []

/-- Stable descending insertion by count: an element passes every entry
with a strictly larger count and stops before equal counts, so ties keep
first-occurrence order, as Counter.most_common does. -/
def insertByCount (p : Str × Nat) : List (Str × Nat) → List (Str × Nat)
  | [] => [p]
  | q :: t => if p.2 < q.2 then q :: insertByCount p t else p :: q :: t

def sortByCount : List (Str × Nat) → List (Str × Nat)
  | [] => []
  | p :: t => insertByCount p (sortByCount t)

def most_common (n : Nat) (items : List (Str × Nat)) : List (Str × Nat) :=
  (sortByCount items).take n

/-- Body class of the URL pattern: anything but whitespace and a closing
parenthesis. -/
def isUrlChar (c : Char) : Bool := !(pyIsSpace c) && !(decide (c = ')'))

/-- One attempt of the URL pattern at the current position: the literal
scheme (the optional s is greedy but can only succeed one way), then a
nonempty greedy body run. -/
def matchUrl (l : Str) : Option (Str × Str) :=
  match l with
  | 'h' :: 't' :: 't' :: 'p' :: 's' :: ':' :: '/' :: '/' :: rest =>
    let b := rest.takeWhile isUrlChar
    if b.length = 0 then none
    else some ('h' :: 't' :: 't' :: 'p' :: 's' :: ':' :: '/' :: '/' :: b, rest.drop b.length)
  | 'h' :: 't' :: 't' :: 'p' :: ':' :: '/' :: '/' :: rest =>
    let b := rest.takeWhile isUrlChar
    if b.length = 0 then none
    else some ('h' :: 't' :: 't' :: 'p' :: ':' :: '/' :: '/' :: b, rest.drop b.length)
  | _ => none

def findUrlsAux : Nat → Str → List Str
  | 0, _ => []
  | _, [] => []
  | Nat.succ fuel, c :: rest =>
    match matchUrl (c :: rest) with
    | some (m, r) => m :: findUrlsAux fuel r
    | none => findUrlsAux fuel rest

def findUrls (l : Str) : List Str := findUrlsAux (l.length + 1) l

/-- Local-part class of the email pattern: letters, digits, dot,
underscore, percent, plus, hyphen. -/
def emailLocalChar (c : Char) : Bool :=
  isAsciiAlpha c || isAsciiDigit c || decide (c = '.') || decide (c = Char.ofNat 95) ||
    decide (c = '%') || decide (c = '+') || decide (c = '-')

/-- Domain class of the email pattern: letters, digits, dot, hyphen. -/
def emailDomChar (c : Char) : Bool :=
  isAsciiAlpha c || isAsciiDigit c || decide (c = '.') || decide (c = '-')

/-- Backtracking split of the greedy domain run R: the largest d keeping a
dot at R[d] followed by at least two letters.  The letter run after the
dot cannot extend past R because letters are domain characters. -/
def emailDomSplit (R : Str) : Option Nat :=
  (List.range' 1 (R.length - 1)).reverse.find? (fun d =>
    decide (R.getD d ' ' = '.') &&
      decide (2 ≤ ((R.drop (d + 1)).takeWhile isAsciiAlpha).length))

/-- One attempt of the email pattern at the current position.  The local
run is greedy and shorter splits cannot rescue a missing at-sign, since
the character after a shorter split is again a local character. -/
def matchEmail (l : Str) : Option (Str × Str) :=
  let L := l.takeWhile emailLocalChar
  if L.length = 0 then none
  else
    match l.drop L.length with
    | '@' :: rest2 =>
      let R := rest2.takeWhile emailDomChar
      match emailDomSplit R with
      | none => none
      | some d =>
        let A := (R.drop (d + 1)).takeWhile isAsciiAlpha
        some (L ++ '@' :: (R.take d ++ '.' :: A), rest2.drop (d + 1 + A.length))
    | _ => none

def findEmailsAux : Nat → Str → List Str
  | 0, _ => []
  | _, [] => []
  | Nat.succ fuel, c :: rest =>
    match matchEmail (c :: rest) with
    | some (m, r) => m :: findEmailsAux fuel r
    | none => findEmailsAux fuel rest

def findEmails (l : Str) : List Str := findEmailsAux (l.length + 1) l

/-- The todo-signal alternatives, in the order of the pattern. -/
def todoAlts : List Str := List.map String.data
  ["todo", "to do", "fixme", "action item", "deadline", "due", "follow up", "next step"]

/-- The urgency alternatives, in the order of the pattern. -/
def urgencyAlts : List Str := List.map String.data
  ["urgent", "asap", "immediately", "critical", "blocker", "high priority"]

/-- One attempt of a word-boundary-delimited alternation at the current
position: alternatives are tried in order; every alternative starts with a
word character, so no match can start right after a word character; the
trailing boundary needs a non-word character (or the end) after the
alternative. -/
def matchAlt (alts : List Str) (prevIsWord : Bool) (l : Str) : Option (Str × Str) :=
  if prevIsWord then none
  else alts.findSome? (fun a =>
    if a.isPrefixOf l then
      match (l.drop a.length).head? with
      | none => some (a, l.drop a.length)
      | some c => if isWordChar c then none else some (a, l.drop a.length)
    else none)

/-- Scanner for a word-boundary-delimited alternation; every alternative
ends with a word character, so after a match the previous character is a
word character. -/
def findAltsAux (alts : List Str) : Nat → Bool → Str → List Str
  | 0, _, _ => []
  | _, _, [] => []
  | Nat.succ fuel, prevIsWord, c :: rest =>
    match matchAlt alts prevIsWord (c :: rest) with
    | some (m, r) => m :: findAltsAux alts fuel true r
    | none => findAltsAux alts fuel (isWordChar c) rest

def findAlts (alts : List Str) (l : Str) : List Str :=
  findAltsAux alts (l.length + 1) false l

/-- set(): deduplication keeping one copy of each element. -/
def dedup (ls : List Str) : List Str :=
  ls.foldl (fun acc s => if s ∈ acc then acc else acc ++ [s]) []

/-- Python string comparison: lexicographic on code points. -/
def strLt : Str → Str → Bool
  | [], [] => false
  | [], _ :: _ => true
  | _ :: _, [] => false
  | a :: xs, b :: ys =>
    if a.val < b.val then true
    else if b.val < a.val then false
    else strLt xs ys

def insertAsc (s : Str) : List Str → List Str
  | [] => [s]
  | t :: r => if strLt s t then s :: t :: r else t :: insertAsc s r

def sortStrs : List Str → List Str
  | [] => []
  | s :: r => insertAsc s (sortStrs r)

/-- sorted(set(xs)) on strings: all elements are distinct after dedup, so
any comparison sort yields this insertion sort result. -/
def sortedSet (ls : List Str) : List Str := sortStrs (dedup ls)

/-- The analysis record of screen_text_analyzer.py lines 68-78. -/
structure Analysis where
  char_count : Nat
  word_count : Nat
  top_words : List (Str × Nat)
  urls : List Str
  emails : List Str
  todo_signals : List Str
  question_count : Nat
  urgency_hits : List Str

/-- analyze_text of screen_text_analyzer.py lines 102-138. -/
def analyze_text (text : String) : Analysis :=
  let t := text.data
  let words := findWords (pyLower t)
  let filtered := words.filter (fun w => decide (w ∉ STOP_WORDS))
  let counts := counter filtered
  { char_count := t.length
    word_count := words.length
    top_words := most_common 8 counts
    urls := sortedSet (findUrls t)
    emails := sortedSet (findEmails t)
    todo_signals := sortedSet (findAlts todoAlts (pyLower t))
    question_count := t.count '?'
    urgency_hits := sortedSet (findAlts urgencyAlts (pyLower t)) }

/-- The digest of line 225: sha1 hexdigest of the cleaned text, or the
empty string when the cleaned text is empty. -/
def digestOf (cleaned : String) : String :=
  if cleaned = "" then "" else sha1Hex cleaned

/-- The change decision of line 227: the digest is truthy (nonempty) and
differs from the previous digest. -/
def digest_changed (prev_digest cleaned : String) : Bool :=
  decide (digestOf cleaned ≠ "") && decide (digestOf cleaned ≠ prev_digest)

/-- Loop state of screen_text_analyzer.main: the previous digest and the
bounded deque of recent cleaned captures, most recent last. -/
structure LoopState where
  prev_digest : String
  recent_text : List String
deriving DecidableEq, Repr

/-- deque(maxlen=cap).append(x): append on the right, evicting from the
left when over capacity. -/
def dequeAppend (cap : Nat) (l : List String) (x : String) : List String :=
  let l2 := l ++ [x]
  l2.drop (l2.length - cap)

/-- The observable outcome of one tick of screen_text_analyzer.main
(lines 215-234): the successor state, the cleaned text that was analyzed
(if any), the sleep duration, and whether the capture failed. -/
structure AnalyzerTick where
  state : LoopState
  analyzed : Option String
  slept : ℚ
  captureFailed : Bool
deriving DecidableEq, Repr

/-- One tick of the analyzer loop: a capture exception is logged, the loop
sleeps max(interval, 2.0) and continues with untouched state; an empty
digest or a repeated digest skips; otherwise prev_digest advances, the
cleaned text is appended to the deque, and analysis runs. -/
def analyzer_tick (interval : ℚ) (history : Nat) (st : LoopState)
    (cap : Except String String) : AnalyzerTick :=
  match cap with
  | Except.error _ =>
    { state := st, analyzed := none, slept := max interval 2, captureFailed := true }
  | Except.ok raw =>
    let cleaned := clean_text raw
    let digest := digestOf cleaned
    if digest ≠ "" ∧ digest ≠ st.prev_digest then
      { state := { prev_digest := digest
                   recent_text := dequeAppend history st.recent_text cleaned }
        analyzed := some cleaned, slept := interval, captureFailed := false }
    else
      { state := st, analyzed := none, slept := interval, captureFailed := false }

/-! ## scripts/screen_text_monitor.py: the fuzzy-diff loop -/

/-- AnalysisConfig from screen_text_monitor.py lines 34-39; the float
interval is modelled as a rational (comparisons with 0.5 are exact). -/
structure AnalysisConfig where
  interval : ℚ
  min_change_chars : Nat
  show_raw_text : Bool
  model : String
deriving DecidableEq, Repr

/-- parse_args (lines 156-178): interval floored at 0.5 via max(0.5, x),
min_change_chars floored at 0 via max(0, x); there is no failing path. -/
def parse_args (interval : ℚ) (min_change_chars : Int) (show_raw_text : Bool)
    (model : String) : AnalysisConfig :=
  { interval := max (1/2 : ℚ) interval
    min_change_chars := (max 0 min_change_chars).toNat
    show_raw_text := show_raw_text
    model := model }

/-- The fixed prompt text of openai_analysis (lines 105-110). -/
def promptFrame : String :=
  "You analyze live OCR text from a user's screen. " ++
  "Return concise bullets: 1) what changed, 2) likely intent/context, " ++
  "3) any actionable next steps. Keep it under 90 words.\n\nOCR text:\n"

/-- The slice text[:12000] by code points. -/
def takeChars (n : Nat) (s : String) : String := String.mk (s.data.take n)

/-- openai_analysis (lines 94-116): raises when OPENAI_API_KEY is absent or
empty, otherwise performs the remote round trip on the prompt built from
the first 12000 characters; an empty response becomes a placeholder and the
response is stripped.  Exceptions are modelled as Except.error; the remote
service is the external collaborator, passed as a function. -/
def openai_analysis (env_api_key : Option String)
    (remote : String → String → Except String String)
    (text model : String) : Except String String :=
  match env_api_key with
  | none => Except.error ("OPENAI_API_KEY is not set")
  | some key =>
    if key = "" then Except.error ("OPENAI_API_KEY is not set")
    else
      match remote model (promptFrame ++ takeChars 12000 text) with
      | Except.error e => Except.error e
      | Except.ok out =>
        Except.ok (pyStripS (if out = "" then "(no analysis returned)" else out))

/-- analyze (lines 119-122): dispatch on the model string; the local
heuristic analyzer is total and never raises, so its narrative is an
arbitrary total function local_fn. -/
def analyze (local_fn : String → String) (env_api_key : Option String)
    (remote : String → String → Except String String)
    (text model : String) : Except String String :=
  if model = "local" then Except.ok (local_fn text)
  else openai_analysis env_api_key remote text model

/-- An analysis report as printed by run: print_block("Analysis", ...) on
success, print_block("Analysis error", str(exc)) on failure. -/
structure Report where
  narrative : String
  isError : Bool
deriving DecidableEq, Repr

/-- The observable outcome of one successful-capture tick of
screen_text_monitor.run (lines 136-153). -/
structure MonitorTick where
  previous : String
  changed : Bool
  rawEchoed : Bool
  report : Option Report
deriving DecidableEq, Repr

/-- One tick of the monitor loop (lines 136-153).  The capture outcome is a
parameter; a capture exception is not caught anywhere inside run (main only
catches KeyboardInterrupt), so it propagates out of the loop as
Except.error.  On a changed verdict the analysis outcome, success or error
alike, becomes a report and previous advances; otherwise only a no-change
notice is printed and previous is kept. -/
def monitor_tick (config : AnalysisConfig) (local_fn : String → String)
    (env_api_key : Option String)
    (remote : String → String → Except String String)
    (previous : String) (cap : Except String String) :
    Except String MonitorTick :=
  match cap with
  | Except.error e => Except.error e
  | Except.ok current =>
    let changed := diff_sizeS previous current
    if config.min_change_chars ≤ changed then
      Except.ok
        { previous := current
          changed := true
          rawEchoed := config.show_raw_text
          report := some (match analyze local_fn env_api_key remote current config.model with
            | Except.ok analysis => { narrative := analysis, isError := false }
            | Except.error exc => { narrative := exc, isError := true }) }
    else
      Except.ok
        { previous := previous, changed := false, rawEchoed := false, report := none }

/-! ## Startup validation -/

/-- The interval check of screen_text_analyzer.main lines 196-198: return
status 2, before the loop is entered, when the interval is below the 0.5
floor. -/
def analyzer_interval_check (interval : ℚ) : Except Nat ℚ :=
  if interval < 1/2 then Except.error 2 else Except.ok interval

/-- screen_text_monitor startup: parse_args has no failing path, so the
program always proceeds to the loop; a below-floor interval is silently
clamped to 0.5. -/
def monitor_startup (interval : ℚ) (min_change_chars : Int) (show_raw_text : Bool)
    (model : String) : Except Nat AnalysisConfig :=
  Except.ok (parse_args interval min_change_chars show_raw_text model)

/-- The sum of the span lengths (both sides) of the non-equal opcodes of
the character alignment: the quantity the spec calls the change magnitude. -/
def opcodeChangeSum (old new : Str) : Nat :=
  ((Difflib.get_opcodes old new).filter
      (fun op => decide (op.tag ≠ Difflib.Tag.equal))).foldl
    (fun acc op => acc + ((op.a2 - op.a1) + (op.b2 - op.b1))) 0

/-- diff_size computes exactly the filtered non-equal span sum. -/
theorem diff_size_eq_opcodeChangeSum (old new : Str) :
    diff_size old new = opcodeChangeSum old new := by
  unfold diff_size opcodeChangeSum
  generalize Difflib.get_opcodes old new = ops
  suffices h : ∀ (acc : Nat),
      ops.foldl (fun changed op =>
        if op.tag ≠ Difflib.Tag.equal then changed + ((op.a2 - op.a1) + (op.b2 - op.b1))
        else changed) acc =
      (ops.filter (fun op => decide (op.tag ≠ Difflib.Tag.equal))).foldl
        (fun acc op => acc + ((op.a2 - op.a1) + (op.b2 - op.b1))) acc by
    exact h 0
  induction ops with
  | nil => intro acc; rfl
  | cons op rest ih =>
    intro acc
    rw [List.foldl_cons, List.filter_cons]
    by_cases h : op.tag = Difflib.Tag.equal
    · rw [if_neg (fun hne => hne h), if_neg (by simp [h])]
      exact ih acc
    · rw [if_pos h, if_pos (by simp [h]), List.foldl_cons]
      exact ih _

/-- The conversion of an analysis outcome into a printed report, as done by
the try/except of run lines 143-147. -/
def reportOf (res : Except String String) : Report :=
  match res with
  | Except.ok analysis => { narrative := analysis, isError := false }
  | Except.error exc => { narrative := exc, isError := true }

/-- One-step unfolding of a successful-capture monitor tick. -/
theorem monitor_tick_ok (config : AnalysisConfig) (local_fn : String → String)
    (env_api_key : Option String) (remote : String → String → Except String String)
    (previous current : String) :
    monitor_tick config local_fn env_api_key remote previous (Except.ok current) =
      (if config.min_change_chars ≤ diff_sizeS previous current then
        Except.ok
          { previous := current, changed := true, rawEchoed := config.show_raw_text,
            report := some (reportOf (analyze local_fn env_api_key remote current
              config.model)) }
      else
        Except.ok
          { previous := previous, changed := false, rawEchoed := false,
            report := none }) := by
  unfold monitor_tick reportOf
  rfl

/-- One-step unfolding of a successful-capture analyzer tick. -/
theorem analyzer_tick_ok (interval : ℚ) (history : Nat) (st : LoopState) (raw : String) :
    analyzer_tick interval history st (Except.ok raw) =
      (if digestOf (clean_text raw) ≠ "" ∧
          digestOf (clean_text raw) ≠ st.prev_digest then
        { state :=
            { prev_digest := digestOf (clean_text raw),
              recent_text := dequeAppend history st.recent_text (clean_text raw) },
          analyzed := some (clean_text raw), slept := interval, captureFailed := false }
      else
        { state := st, analyzed := none, slept := interval, captureFailed := false }) := rfl

/-! ## Claims -/

/-- C3 counterexample: the threshold 0 is reachable (parse_args floors
min_change_chars at 0, so --min-change-chars 0 passes through), and at
threshold 0 a tick whose capture equals the previous sample still gets a
changed verdict and is re-analyzed, because the magnitude 0 satisfies
0 >= 0.  This refutes "changed=false for any threshold >= 0". -/
theorem C3_counterexample :
    (parse_args 2 0 false ("local")).min_change_chars = 0 ∧
    monitor_tick
        { interval := 2, min_change_chars := 0, show_raw_text := false,
          model := "local" }
        (fun _ => "summary") none (fun _ _ => Except.error ("net"))
        ("") (Except.ok ("")) =
      Except.ok
        { previous := "", changed := true, rawEchoed := false,
          report := some { narrative := "summary", isError := false } } := by
  constructor
  · rfl
  · rfl

/-- C3 (amended): under the fuzzy strategy, decide(t, t) has magnitude 0
for every threshold, and the verdict is unchanged (no report, previous kept)
for every threshold at least 1; at threshold 0 the verdict is changed, so
the claim holds only from threshold 1 up. -/
theorem C3_theorem (cfg : AnalysisConfig) (local_fn : String → String)
    (env_api_key : Option String) (remote : String → String → Except String String)
    (t : String) (hthr : 1 ≤ cfg.min_change_chars) :
    diff_sizeS t t = 0 ∧
    monitor_tick cfg local_fn env_api_key remote t (Except.ok t) =
      Except.ok
        { previous := t, changed := false, rawEchoed := false, report := none } := by
  have hz : diff_sizeS t t = 0 := diff_sizeS_self t
  refine ⟨hz, ?_⟩
  rw [monitor_tick_ok, hz, if_neg (by omega)]

/-- C3 witness. -/
theorem C3_witness :
    diff_sizeS ("ab") ("ab") = 0 ∧
    monitor_tick
        { interval := 2, min_change_chars := 1, show_raw_text := false,
          model := "local" }
        (fun _ => "summary") none (fun _ _ => Except.error ("net"))
        ("ab") (Except.ok ("ab")) =
      Except.ok
        { previous := "ab", changed := false, rawEchoed := false, report := none } :=
  C3_theorem
    { interval := 2, min_change_chars := 1, show_raw_text := false, model := "local" }
    (fun _ => "summary") none (fun _ _ => Except.error ("net")) ("ab") (by decide)

/-- C2 (amended): in the analyzer loop a capture failure leaves the state
(previous digest and history) untouched, runs no analysis, sleeps
max(interval, 2.0) - at least the configured interval and at least the 2.0
safety floor - and the loop continues (the tick is total); in the monitor
loop, by contrast, a capture failure propagates out of the loop, which is
the counterexample. -/
theorem C2_theorem (interval : ℚ) (history : Nat) (st : LoopState) (e : String) :
    analyzer_tick interval history st (Except.error e) =
      { state := st, analyzed := none, slept := max interval 2, captureFailed := true } ∧
    interval ≤ max interval 2 ∧ (2 : ℚ) ≤ max interval 2 :=
  ⟨rfl, le_max_left _ _, le_max_right _ _⟩

/-- C2 counterexample: in screen_text_monitor.run the capture call is not
wrapped in any handler (main only catches KeyboardInterrupt), so a tick
whose capture raises terminates the loop with the exception. -/
theorem C2_counterexample :
    monitor_tick
        { interval := 2, min_change_chars := 50, show_raw_text := false,
          model := "local" }
        (fun _ => "summary") none (fun _ _ => Except.error ("net"))
        ("") (Except.error ("OCR failed")) = Except.error ("OCR failed") := rfl

/-- C5: the fuzzy magnitude is the sum of the span lengths from both sides
of all non-matching (replace, delete, insert) opcodes of the alignment; the
tick verdict is changed exactly when the magnitude reaches the configured
minimum; and against an empty current text the magnitude is the full length
of the previous text. -/
theorem C5_theorem (old new : String) (cfg : AnalysisConfig)
    (local_fn : String → String) (env_api_key : Option String)
    (remote : String → String → Except String String) :
    diff_sizeS old new = opcodeChangeSum old.data new.data ∧
    (∃ out : MonitorTick,
      monitor_tick cfg local_fn env_api_key remote old (Except.ok new) =
        Except.ok out ∧
      (out.changed = true ↔ cfg.min_change_chars ≤ diff_sizeS old new)) ∧
    diff_sizeS old ("") = old.length := by
  refine ⟨diff_size_eq_opcodeChangeSum old.data new.data, ?_,
    diff_sizeS_empty_right old⟩
  rw [monitor_tick_ok]
  by_cases h : cfg.min_change_chars ≤ diff_sizeS old new
  · rw [if_pos h]
    exact ⟨_, rfl, by simpa using h⟩
  · rw [if_neg h]
    refine ⟨_, rfl, ?_⟩
    simpa using h

/-- C6: under the digest strategy, a capture equal to the previous text is
skipped (equal digests), a nonempty capture after empty previous state is
analyzed (its digest is a nonempty sha1 hex string), and an empty capture
never triggers (its digest is the falsy empty string). -/
theorem C6_theorem (t : String) (h : t ≠ "") :
    digest_changed (digestOf t) t = false ∧
    digest_changed (digestOf ("")) t = true ∧
    digest_changed (digestOf t) ("") = false := by
  refine ⟨?_, ?_, ?_⟩
  · simp [digest_changed]
  · simp only [digest_changed, digestOf, if_neg h, Bool.and_eq_true, decide_eq_true_eq]
    exact ⟨sha1Hex_ne_empty t, sha1Hex_ne_empty t⟩
  · simp [digest_changed, digestOf]

/-- C6 witness. -/
theorem C6_witness :
    digest_changed (digestOf ("a")) ("a") = false ∧
    digest_changed (digestOf ("")) ("a") = true ∧
    digest_changed (digestOf ("a")) ("") = false :=
  C6_theorem ("a") (by decide)

/-- C7 counterexample: the monitor program does not exit on a below-floor
interval; parse_args silently clamps 0.1 to the 0.5 floor and startup
succeeds, so "every configuration whose interval is below the floor exits
with a nonzero status before the loop" is false. -/
theorem C7_counterexample :
    monitor_startup (1/10) 50 false ("local") =
      Except.ok (parse_args (1/10) 50 false ("local")) ∧
    (parse_args (1/10) 50 false ("local")).interval = 1/2 := by
  refine ⟨rfl, ?_⟩
  show max (1/2 : ℚ) (1/10) = 1/2
  rw [max_eq_left]
  norm_num

/-- C7 (amended): the analyzer program rejects a below-floor interval with
the distinct nonzero exit status 2 before the loop runs; the monitor
program instead clamps the interval to the 0.5 floor and proceeds to the
loop without exiting. -/
theorem C7_theorem (q : ℚ) (h : q < 1/2) :
    analyzer_interval_check q = Except.error 2 ∧ (2 : Nat) ≠ 0 ∧
    (∀ (mcc : Int) (srt : Bool) (model : String),
      monitor_startup q mcc srt model = Except.ok (parse_args q mcc srt model) ∧
      (parse_args q mcc srt model).interval = 1/2) := by
  refine ⟨?_, by decide, ?_⟩
  · unfold analyzer_interval_check
    rw [if_pos h]
  · intro mcc srt model
    refine ⟨rfl, ?_⟩
    show max (1/2 : ℚ) q = 1/2
    exact max_eq_left h.le

/-- C7 witness. -/
theorem C7_witness :
    analyzer_interval_check 0 = Except.error 2 ∧ (2 : Nat) ≠ 0 ∧
    (∀ (mcc : Int) (srt : Bool) (model : String),
      monitor_startup 0 mcc srt model = Except.ok (parse_args 0 mcc srt model) ∧
      (parse_args 0 mcc srt model).interval = 1/2) :=
  C7_theorem 0 one_half_pos

/-- C9: with the Remote variant selected and no credential in the
environment, a changed tick of the monitor loop produces an error report
(isError true, narrative the error description) instead of raising: the
tick returns Except.ok - nothing propagates past the try/except at lines
143-147 - previous advances and the loop stays alive. -/
theorem C9_theorem (cfg : AnalysisConfig) (local_fn : String → String)
    (remote : String → String → Except String String) (previous current : String)
    (hmodel : cfg.model ≠ "local")
    (hchanged : cfg.min_change_chars ≤ diff_sizeS previous current) :
    monitor_tick cfg local_fn none remote previous (Except.ok current) =
      Except.ok
        { previous := current, changed := true, rawEchoed := cfg.show_raw_text,
          report := some
            { narrative := "OPENAI_API_KEY is not set", isError := true } } := by
  rw [monitor_tick_ok, if_pos hchanged]
  unfold analyze
  rw [if_neg hmodel]
  rfl

/-- C9 witness. -/
theorem C9_witness :
    monitor_tick
        { interval := 2, min_change_chars := 0, show_raw_text := false,
          model := "gpt-4.1-mini" }
        (fun _ => "summary") none (fun _ _ => Except.ok ("remote answer"))
        ("") (Except.ok ("")) =
      Except.ok
        { previous := "", changed := true, rawEchoed := false,
          report := some
            { narrative := "OPENAI_API_KEY is not set", isError := true } } :=
  C9_theorem
    { interval := 2, min_change_chars := 0, show_raw_text := false,
      model := "gpt-4.1-mini" }
    (fun _ => "summary") (fun _ _ => Except.ok ("remote answer")) ("") ("")
    (by decide) (Nat.zero_le _)

/-- C10: in the digest loop, a tick whose capture cleans to the empty
string leaves the whole loop state unchanged (previous digest kept, nothing
appended to the history deque, no analysis), and a tick whose cleaned
capture has the digest already recorded as previous - such as content
identical to the last analyzed capture reappearing after a blank capture -
produces no new analysis and leaves the state unchanged as well. -/
theorem C10_theorem (interval : ℚ) (history : Nat) (st : LoopState) (raw raw2 : String)
    (hblank : clean_text raw = "")
    (hsame : digestOf (clean_text raw2) = st.prev_digest) :
    analyzer_tick interval history st (Except.ok raw) =
      { state := st, analyzed := none, slept := interval, captureFailed := false } ∧
    analyzer_tick interval history st (Except.ok raw2) =
      { state := st, analyzed := none, slept := interval, captureFailed := false } := by
  constructor
  · rw [analyzer_tick_ok, hblank, if_neg]
    intro hcon
    exact hcon.1 (by simp [digestOf])
  · rw [analyzer_tick_ok, if_neg]
    intro hcon
    exact hcon.2 hsame

/-- C10 witness. -/
theorem C10_witness :
    analyzer_tick 2 8 { prev_digest := "", recent_text := [] } (Except.ok ("")) =
      { state := { prev_digest := "", recent_text := [] }, analyzed := none,
        slept := 2, captureFailed := false } ∧
    analyzer_tick 2 8 { prev_digest := "", recent_text := [] } (Except.ok ("")) =
      { state := { prev_digest := "", recent_text := [] }, analyzed := none,
        slept := 2, captureFailed := false } :=
  C10_theorem 2 8 { prev_digest := "", recent_text := [] } ("") ("")
    (by decide) (by decide)

/-- C1 counterexample: with the fuzzy threshold 0 (reachable, parse_args
only floors at 0) every tick has a changed verdict, including a tick whose
capture is identical to the just-advanced previous sample, so the second of
two identical ticks is re-analyzed rather than judged unchanged. -/
theorem C1_counterexample :
    monitor_tick
        { interval := 2, min_change_chars := 0, show_raw_text := false,
          model := "local" }
        (fun _ => "summary") none (fun _ _ => Except.error ("net"))
        ("same") (Except.ok ("same")) =
      Except.ok
        { previous := "same", changed := true, rawEchoed := false,
          report := some { narrative := "summary", isError := false } } := rfl

/-- C1 (amended): on every changed tick the previous sample advances to the
current sample whatever the analyzer outcome (the report exists for success
and failure alike); an immediately following tick with identical content is
unchanged and unanalyzed provided the fuzzy threshold is at least 1; under
the digest strategy the previous digest advances before analysis and the
following identical tick is skipped unconditionally. -/
theorem C1_theorem (cfg : AnalysisConfig) (local_fn : String → String)
    (env_api_key : Option String) (remote : String → String → Except String String)
    (previous current : String) (interval : ℚ) (history : Nat) (st : LoopState)
    (raw : String)
    (hchanged : cfg.min_change_chars ≤ diff_sizeS previous current)
    (hthr : 1 ≤ cfg.min_change_chars)
    (hdig : digest_changed st.prev_digest (clean_text raw) = true) :
    (∃ rep : Report,
      monitor_tick cfg local_fn env_api_key remote previous (Except.ok current) =
        Except.ok
          { previous := current, changed := true, rawEchoed := cfg.show_raw_text,
            report := some rep }) ∧
    monitor_tick cfg local_fn env_api_key remote current (Except.ok current) =
      Except.ok
        { previous := current, changed := false, rawEchoed := false,
          report := none } ∧
    (analyzer_tick interval history st (Except.ok raw)).state.prev_digest =
      digestOf (clean_text raw) ∧
    analyzer_tick interval history
        ((analyzer_tick interval history st (Except.ok raw)).state) (Except.ok raw) =
      { state := (analyzer_tick interval history st (Except.ok raw)).state,
        analyzed := none, slept := interval, captureFailed := false } := by
  have hcond : digestOf (clean_text raw) ≠ "" ∧
      digestOf (clean_text raw) ≠ st.prev_digest := by
    have h1 := hdig
    unfold digest_changed at h1
    simp only [Bool.and_eq_true, decide_eq_true_eq] at h1
    exact h1
  have htick : analyzer_tick interval history st (Except.ok raw) =
      { state :=
          { prev_digest := digestOf (clean_text raw),
            recent_text := dequeAppend history st.recent_text (clean_text raw) },
        analyzed := some (clean_text raw), slept := interval, captureFailed := false } := by
    rw [analyzer_tick_ok, if_pos hcond]
  refine ⟨?_, ?_, ?_, ?_⟩
  · rw [monitor_tick_ok, if_pos hchanged]
    exact ⟨reportOf (analyze local_fn env_api_key remote current cfg.model), rfl⟩
  · rw [monitor_tick_ok, diff_sizeS_self current, if_neg (by omega)]
  · rw [htick]
  · rw [htick]
    rw [analyzer_tick_ok, if_neg]
    intro hcon
    exact hcon.2 rfl

/-- C1 witness. -/
theorem C1_witness :
    (∃ rep : Report,
      monitor_tick
          { interval := 2, min_change_chars := 1, show_raw_text := false,
            model := "local" }
          (fun _ => "summary") none (fun _ _ => Except.error ("net"))
          ("") (Except.ok ("a")) =
        Except.ok
          { previous := "a", changed := true, rawEchoed := false,
            report := some rep }) ∧
    monitor_tick
        { interval := 2, min_change_chars := 1, show_raw_text := false,
          model := "local" }
        (fun _ => "summary") none (fun _ _ => Except.error ("net"))
        ("a") (Except.ok ("a")) =
      Except.ok
        { previous := "a", changed := false, rawEchoed := false, report := none } ∧
    (analyzer_tick 2 8 { prev_digest := "", recent_text := [] }
        (Except.ok ("a"))).state.prev_digest = digestOf (clean_text ("a")) ∧
    analyzer_tick 2 8
        ((analyzer_tick 2 8 { prev_digest := "", recent_text := [] }
          (Except.ok ("a"))).state) (Except.ok ("a")) =
      { state := (analyzer_tick 2 8 { prev_digest := "", recent_text := [] }
          (Except.ok ("a"))).state,
        analyzed := none, slept := 2, captureFailed := false } :=
  C1_theorem
    { interval := 2, min_change_chars := 1, show_raw_text := false, model := "local" }
    (fun _ => "summary") none (fun _ _ => Except.error ("net")) ("") ("a") 2 8
    { prev_digest := "", recent_text := [] } ("a") (by decide) (by decide) (by decide)

/-- The input string of the pattern-extraction example. -/
def c4Input : String :=
  "Contact me at a@b.com or see http://x.co, this is URGENT, TODO: reply. ??"

/-- C4 counterexample: on the cited input the URL body class excludes only
whitespace and a closing parenthesis, so the comma right after x.co is part
of the match; urls is the one-element list holding http://x.co, (with the
trailing comma) and not http://x.co as claimed. -/
theorem C4_counterexample :
    (analyze_text c4Input).urls ≠ [("http://x.co").data] := by decide

/-- C4 (amended): analyze_text applied to the cited input returns emails
equal to the one-element list a@b.com, urls equal to the one-element list
http://x.co, (the trailing comma belongs to the match, because the URL
body class excludes only whitespace and closing parentheses), urgency_hits
containing urgent, todo_signals containing todo, and question_count 2. -/
theorem C4_theorem :
    (analyze_text c4Input).emails = [("a@b.com").data] ∧
    (analyze_text c4Input).urls = [("http://x.co,").data] ∧
    ("urgent").data ∈ (analyze_text c4Input).urgency_hits ∧
    ("todo").data ∈ (analyze_text c4Input).todo_signals ∧
    (analyze_text c4Input).question_count = 2 := by decide

/-- C8: text normalization is idempotent: for every string x,
normalize(normalize(x)) = normalize(x), both for the monitor's
whitespace-collapse variant normalize_text and for the analyzer's
line-trim/blank-line-removal variant clean_text. -/
theorem C8_theorem (s : String) :
    normalize_text (normalize_text s) = normalize_text s ∧
    clean_text (clean_text s) = clean_text s :=
  ⟨congrArg String.mk (normalize_textL_idem s.data),
   congrArg String.mk (clean_textL_idem s.data)⟩

end DDX
